import Mathlib

/-!
Verification development for the KNUE portal API server.

The definitions below are a shallow embedding of the TypeScript sources:
`src/services/menuService.ts`, `src/services/authService.ts`,
`src/utils/menuParser.ts` (menu parsing, the two text formatters, and the
trip-history extraction).  Machine strings are Lean `String`s, JavaScript
regex replaces are embedded as explicit fuel-based scanners over `List Char`,
stateful parts (retry timer, Redis stores) are explicit state records, and
fallible code returns `Except`.  Library calls that are total over strings
(cheerio's `load`) are modelled as function-typed parameters.
-/

set_option maxHeartbeats 1000000

namespace KnuePortal

/-- The seven weekday identifiers used as keys of a day menu
(`DAY_MAPPING` in `src/types/menuTypes`). -/
inductive Day
  | monday | tuesday | wednesday | thursday | friday | saturday | sunday
deriving Repr, DecidableEq

/-- One day's three meal slots (interface `Meal`): each a normalized
comma-joined string, empty meaning "no data". -/
structure Meal where
  breakfast : String
  lunch : String
  dinner : String
deriving Repr, DecidableEq

/-- A week of meals, one `Meal` per fixed weekday (interface `DayMenu`). -/
structure DayMenu where
  monday : Meal
  tuesday : Meal
  wednesday : Meal
  thursday : Meal
  friday : Meal
  saturday : Meal
  sunday : Meal
deriving Repr, DecidableEq

/-- Indexing `dayMenu[day]` as done by string key in the TypeScript code. -/
def DayMenu.get (m : DayMenu) : Day → Meal
  | .monday => m.monday
  | .tuesday => m.tuesday
  | .wednesday => m.wednesday
  | .thursday => m.thursday
  | .friday => m.friday
  | .saturday => m.saturday
  | .sunday => m.sunday

/-- Assignment `dayMenu[day] = meal`. -/
def DayMenu.set (m : DayMenu) (d : Day) (v : Meal) : DayMenu :=
  match d with
  | .monday => { m with monday := v }
  | .tuesday => { m with tuesday := v }
  | .wednesday => { m with wednesday := v }
  | .thursday => { m with thursday := v }
  | .friday => { m with friday := v }
  | .saturday => { m with saturday := v }
  | .sunday => { m with sunday := v }

/-- `interface MenuData`: the weekly snapshot with two cafeteria schedules
and a timestamp. -/
structure MenuData where
  staff : DayMenu
  dormitory : DayMenu
  lastUpdated : String
deriving Repr, DecidableEq

/-- `initializeDayMenu` from `menuParser.ts`: every day starts with three
empty strings. -/
def initializeDayMenu : DayMenu :=
  let e : Meal := { breakfast := "", lunch := "", dinner := "" }
  { monday := e, tuesday := e, wednesday := e, thursday := e, friday := e,
    saturday := e, sunday := e }

/-- The weekday list used by `isStaffEmptyOnWeekdays`. -/
def weekdays : List Day := [.monday, .tuesday, .wednesday, .thursday, .friday]

/-- The full-week list used by `isDormitoryEmpty` (and the parser's day loop). -/
def daysOfWeek : List Day :=
  [.monday, .tuesday, .wednesday, .thursday, .friday, .saturday, .sunday]

/-- Body of the `weekdays.some(...)` predicate in `isStaffEmptyOnWeekdays`:
a staff day counts as having a gap when its lunch or dinner is falsy or has
length 0 (both conditions are "the string is empty"; the `!meal` guard is
vacuous because `initializeDayMenu` populates all seven days). -/
def staffDayUnfilled (m : Meal) : Bool :=
  (m.lunch == "" || m.lunch.length == 0) ||
    (m.dinner == "" || m.dinner.length == 0)

/-- Body of the `daysOfWeek.some(...)` predicate in `isDormitoryEmpty`. -/
def dormDayUnfilled (m : Meal) : Bool :=
  (m.breakfast == "" || m.breakfast.length == 0) ||
    (m.lunch == "" || m.lunch.length == 0) ||
    (m.dinner == "" || m.dinner.length == 0)

/-- `MenuService.isMenuEmpty` (menuService.ts lines 47-96): true when SOME
weekday staff entry has a missing lunch or dinner, OR SOME dormitory day has
a missing meal. -/
def isMenuEmpty (md : MenuData) : Bool :=
  (weekdays.any fun d => staffDayUnfilled (md.staff.get d)) ||
    (daysOfWeek.any fun d => dormDayUnfilled (md.dormitory.get d))

/-- Modelled from the spec's completeness policy (§4.2), for comparison with
the code's `isMenuEmpty`: "incomplete" holds when ALL weekday staff-days are
unfilled AND ALL seven dormitory-days are unfilled. -/
def specIncompleteMenu (md : MenuData) : Bool :=
  (weekdays.all fun d => staffDayUnfilled (md.staff.get d)) &&
    (daysOfWeek.all fun d => dormDayUnfilled (md.dormitory.get d))

/-- A snapshot whose Monday staff lunch and dinner are filled and everything
else is empty. -/
def c1Example : MenuData :=
  { staff := { initializeDayMenu with
      monday := { breakfast := "", lunch := "Rice", dinner := "Soup" } },
    dormitory := initializeDayMenu,
    lastUpdated := "2025-01-01" }

/-- A day menu with the same meal record on all seven days. -/
def constDayMenu (m : Meal) : DayMenu :=
  { monday := m, tuesday := m, wednesday := m, thursday := m, friday := m,
    saturday := m, sunday := m }

/-- A fully filled snapshot. -/
def fullMenuExample : MenuData :=
  let m : Meal := { breakfast := "a", lunch := "b", dinner := "c" }
  { staff := constDayMenu m, dormitory := constDayMenu m, lastUpdated := "t" }

/-! ## String machinery: JavaScript regex replaces as explicit scanners

Each `String.prototype.replace(regex, rep)` with a `g` flag scans left to
right, applies the leftmost match at each position, emits the replacement and
continues scanning after the match.  All regexes used by the two formatters
are deterministic after max-munch (where JS backtracking matters it is noted
at the matcher), so each is embedded as a function returning the length of
the match starting at the current position, if any. -/

/-- JavaScript whitespace: the `\s` class and the set trimmed by
`String.prototype.trim`. -/
def jsWs (c : Char) : Bool :=
  c = ' ' || c = '\t' || c = '\n' || c = '\x0b' || c = '\x0c' || c = '\r' ||
    c.val = 0xa0 || c.val = 0x1680 || (0x2000 ≤ c.val && c.val ≤ 0x200a) ||
    c.val = 0x2028 || c.val = 0x2029 || c.val = 0x202f || c.val = 0x205f ||
    c.val = 0x3000 || c.val = 0xfeff

/-- Consume a literal from the front of the input, returning the rest. -/
def consumeLit : List Char → List Char → Option (List Char)
  | [], rest => some rest
  | _ :: _, [] => none
  | p :: ps, c :: cs => if c = p then consumeLit ps cs else none

/-- Consume one expected character. -/
def consumeChar (t : Char) : List Char → Option (List Char)
  | c :: cs => if c = t then some cs else none
  | [] => none

/-- Consume exactly two digits (`\d{2}`). -/
def consumeDigits2 : List Char → Option (List Char)
  | a :: b :: rest => if a.isDigit && b.isDigit then some rest else none
  | _ => none

/-- Consume one or two digits (`\d{1,2}`), max-munch.  In the time patterns
the next token is `:` or `~`, never a digit, so greedy matching without
backtracking is equivalent to the JS engine's behaviour. -/
def consumeDigits12 : List Char → Option (List Char)
  | [] => none
  | a :: rest =>
    if a.isDigit then
      match rest with
      | b :: rest2 => if b.isDigit then some rest2 else some rest
      | [] => some []
    else none

/-- Consume `\d{1,2}:\d{2}~\d{1,2}:\d{2}`. -/
def consumeTime (l : List Char) : Option (List Char) :=
  (consumeDigits12 l).bind fun l => (consumeChar ':' l).bind fun l =>
    (consumeDigits2 l).bind fun l => (consumeChar '~' l).bind fun l =>
      (consumeDigits12 l).bind fun l => (consumeChar ':' l).bind fun l =>
        consumeDigits2 l

/-- Consume `\[time\]` where `time` is the pattern of `consumeTime`. -/
def consumeBracketTime (l : List Char) : Option (List Char) :=
  (consumeChar '[' l).bind fun l => (consumeTime l).bind fun l =>
    consumeChar ']' l

/-- Consume `\[[^\]]*\]`: an opening bracket, the run of characters up to
the first closing bracket, and that closing bracket.  Returns the inner
segment and the rest.  `[^\]]` cannot cross a `]`, so the match always ends
at the first `]` after the opening bracket; no backtracking arises. -/
def consumeBracketSeg (l : List Char) : Option (List Char × List Char) :=
  match l with
  | '[' :: rest =>
    let seg := rest.takeWhile fun c => c ≠ ']'
    match rest.dropWhile (fun c => c ≠ ']') with
    | ']' :: rest2 => some (seg, rest2)
    | _ => none
  | _ => none

/-- Turn a front-consumer into a match-length function. -/
def toMatcher (consume : List Char → Option (List Char)) :
    List Char → Option Nat :=
  fun l => (consume l).map fun rest => l.length - rest.length

/-- One global-regex replace pass: at each position, if `m` reports a match
of length `n + 1`, emit `rep` and continue after the match; otherwise keep
the character and move on.  A report of length 0 counts as no match (none of
the embedded patterns is nullable).  Fuel bounds the recursion; it is spent
one unit per step and the input shrinks by at least one character per step,
so `l.length` units suffice. -/
def replacePassAux (m : List Char → Option Nat) (rep : List Char) :
    Nat → List Char → List Char
  | 0, l => l
  | _ + 1, [] => []
  | fuel + 1, c :: cs =>
    match m (c :: cs) with
    | some (n + 1) => rep ++ replacePassAux m rep fuel (cs.drop n)
    | _ => c :: replacePassAux m rep fuel cs

/-- `input.replace(/pattern/g, rep)` for a deterministic pattern `m`. -/
def replacePass (m : List Char → Option Nat) (rep : List Char)
    (l : List Char) : List Char :=
  replacePassAux m rep l.length l

/-- `input.replace(/c/g, r)` for a single character `c`: a per-character map. -/
def replaceCharAll (t r : Char) (l : List Char) : List Char :=
  l.map fun c => if c = t then r else c

/-- Matcher for `\s+`: the maximal whitespace run at this position. -/
def wsPlusMatcher : List Char → Option Nat := toMatcher fun l =>
  let rest := l.dropWhile jsWs
  if rest.length < l.length then some rest else none

/-- `String.prototype.trim`. -/
def trimJs (l : List Char) : List Char :=
  ((l.dropWhile jsWs).reverse.dropWhile jsWs).reverse

/-- `String.prototype.trim` on strings (the ECMAScript whitespace set). -/
def trimStr (s : String) : String :=
  ⟨trimJs s.toList⟩

/-- `str.split(" ")` on the single-space separator. -/
def splitOnSpace : List Char → List (List Char)
  | [] => [[]]
  | c :: cs =>
    if c = ' ' then [] :: splitOnSpace cs
    else
      match splitOnSpace cs with
      | t :: ts => (c :: t) :: ts
      | [] => [[c]]

/-- `items.join(",")`. -/
def joinCommas : List (List Char) → List Char
  | [] => []
  | [p] => p
  | p :: ps => p ++ ',' :: joinCommas ps

/-! ### Matchers for `formatStaffMenuContent` -/

/-- `\[\d{1,2}:\d{2}~\d{1,2}:\d{2}\]\s*\[[^\]]+\]` (time window + station). -/
def timePlaceMatcher : List Char → Option Nat := toMatcher fun l =>
  (consumeBracketTime l).bind fun l =>
    (consumeBracketSeg (l.dropWhile jsWs)).bind fun p =>
      if p.1.isEmpty then none else some p.2

/-- The literal `\[셀프코너\]`. -/
def selfCornerMatcher : List Char → Option Nat :=
  toMatcher (consumeLit "[셀프코너]".toList)

/-- `\[\d{1,2}:\d{2}~\d{1,2}:\d{2}\]` alone. -/
def timeMatcher : List Char → Option Nat := toMatcher consumeBracketTime

/-- `\[[^\]]+추가메뉴\]`: a bracketed segment that ends in the literal
`추가메뉴` preceded by at least one character.  The segment is bounded by the
first `]`, so JS backtracking reduces to this suffix test. -/
def extraMenuMatcher : List Char → Option Nat := toMatcher fun l =>
  (consumeBracketSeg l).bind fun p =>
    if "추가메뉴".toList.isSuffixOf p.1 && p.1.length > "추가메뉴".length then
      some p.2
    else none

/-- `\[[^\]]*\]`: any bracketed segment. -/
def allBracketMatcher : List Char → Option Nat := toMatcher fun l =>
  (consumeBracketSeg l).map (·.2)

/-- The literal `&amp;`. -/
def ampEntityMatcher : List Char → Option Nat :=
  toMatcher (consumeLit "&amp;".toList)

/-- The five bracket-stripping replaces of `formatStaffMenuContent`, in
source order (applied innermost first): the time-window + station pattern,
the self-corner literal, the bare time window, the extra-menu pattern, and
finally every remaining bracketed segment. -/
def staffStripBrackets (l : List Char) : List Char :=
  replacePass allBracketMatcher []
    (replacePass extraMenuMatcher []
      (replacePass timeMatcher []
        (replacePass selfCornerMatcher []
          (replacePass timePlaceMatcher [] l))))

/-- The delimiter-to-space replaces of `formatStaffMenuContent`, in source
order (applied innermost first): `&amp;`, `&`, `/`, `+`, `•`, `·`, `|`,
newline. -/
def staffDelimsToSpace (l : List Char) : List Char :=
  replaceCharAll '\n' ' '
    (replaceCharAll '|' ' '
      (replaceCharAll '·' ' '
        (replaceCharAll '•' ' '
          (replaceCharAll '+' ' '
            (replaceCharAll '/' ' '
              (replaceCharAll '&' ' '
                (replacePass ampEntityMatcher [' '] l)))))))

/-- The token list of `formatStaffMenuContent`: collapse whitespace runs,
trim, split on spaces, trim each token and keep the non-empty ones. -/
def staffTokens (l : List Char) : List (List Char) :=
  ((splitOnSpace
      (trimJs (replacePass wsPlusMatcher [' ']
        (staffDelimsToSpace (staffStripBrackets l))))).map
    trimJs).filter fun p => 0 < p.length

/-- `formatStaffMenuContent` (menuParser.ts lines 231-270): strip bracketed
annotations, turn the delimiter characters into spaces, collapse whitespace,
split into tokens and rejoin with commas. -/
def formatStaffMenuContent (content : String) : String :=
  if content = "" then ""
  else ⟨joinCommas (staffTokens content.toList)⟩

/-! ### Matchers for `formatMenuContent` (dormitory rule) -/

/-- `\s*X\s*` for a one-character alternative `X` drawn from `p` (`X` is
never itself whitespace here, so max-munch on the leading `\s*` is exact). -/
def wsAroundMatcher (p : Char → Bool) : List Char → Option Nat :=
  toMatcher fun l =>
    match l.dropWhile jsWs with
    | c :: rest => if p c then some (rest.dropWhile jsWs) else none
    | [] => none

/-- `:\s*`. -/
def colonMatcher : List Char → Option Nat := toMatcher fun l =>
  (consumeChar ':' l).map (·.dropWhile jsWs)

/-- `\s*\n\s*`: since `\n` is itself in `\s`, greedy matching with
backtracking makes this match exactly a maximal whitespace run that contains
at least one newline (the leading `\s*` backs off to just before the last
`\n` of the run, and the trailing `\s*` then eats the remainder). -/
def newlineRunMatcher : List Char → Option Nat := toMatcher fun l =>
  if (l.takeWhile jsWs).contains '\n' then some (l.dropWhile jsWs) else none

/-- `,\s*,`. -/
def commaPairMatcher : List Char → Option Nat := toMatcher fun l =>
  (consumeChar ',' l).bind fun l => consumeChar ',' (l.dropWhile jsWs)

/-- `.replace(/^,\s*/, "")`: one leading comma and following whitespace. -/
def dropLeadingComma (l : List Char) : List Char :=
  match l with
  | c :: rest => if c = ',' then rest.dropWhile jsWs else l
  | [] => l

/-- `.replace(/,\s*$/, "")`: removes a final comma followed only by
whitespace.  The pattern anchors at the end, so it fires exactly when the
characters after the last non-whitespace position include a comma there. -/
def dropTrailingComma (l : List Char) : List Char :=
  match l.reverse.dropWhile jsWs with
  | c :: rest => if c = ',' then rest.reverse else l
  | [] => l

/-- The delimiter-unification prefix of `formatMenuContent`: the replaces
from `/&amp;/g` through the separator list, each variant becoming a comma
(and `:\s*` becoming a bare colon). -/
def unifyDelims (content : String) : List Char :=
  replacePass (wsAroundMatcher fun c => c == '|' || c == '│') [',']
    (replacePass (wsAroundMatcher fun c => c == '·') [',']
      (replacePass (wsAroundMatcher fun c => c == '•') [',']
        (replacePass (wsAroundMatcher fun c => c == '+') [',']
          (replacePass (wsAroundMatcher fun c => c == '/') [',']
            (replacePass (wsAroundMatcher fun c => c == '.') [',']
              (replacePass newlineRunMatcher [',']
                (replacePass colonMatcher [':']
                  (replacePass (wsAroundMatcher fun c => c == '&') [',']
                    (replacePass ampEntityMatcher [',']
                      content.toList)))))))))

/-- `formatMenuContent` (menuParser.ts lines 275-319): unify the delimiter
variants into commas, collapse comma pairs, trim, drop a leading and a
trailing comma, and squeeze whitespace around commas. -/
def formatMenuContent (content : String) : String :=
  if content = "" then ""
  else
    ⟨replacePass (wsAroundMatcher fun c => c == ',') [',']
      (dropTrailingComma
        (dropLeadingComma
          (trimJs (replacePass commaPairMatcher [','] (unifyDelims content)))))⟩

/-- The string (after delimiter unification) has two commas separated only
by whitespace — the situation `/,\s*,/g` is meant to collapse. -/
def hasCommaPair : List Char → Bool
  | [] => false
  | c :: rest =>
    (c == ',' && (rest.dropWhile jsWs).head? == some ',') || hasCommaPair rest

/-- The first non-whitespace character is a comma. -/
def headCommaAfterWs (l : List Char) : Bool :=
  (l.dropWhile jsWs).head? == some ','

/-- The last non-whitespace character is a comma (the firing condition of
`/,\s*$/`). -/
def endsCommaWs (l : List Char) : Bool :=
  (l.reverse.dropWhile jsWs).head? == some ','

/-! ## HTML structure model and `parseMenuHtml`

Cheerio's `load` accepts any string and never throws (parse5 is an
error-recovering HTML parser), so it is modelled as an arbitrary total
function into the following projection of the document: for each of the
seven fixed day anchors (`#mon_list` … `#sun_list`), the optional day
section, and within a section the optional table following the staff header
(`h3` containing `교직원`) and the optional table following the dormitory
header (`h3` containing `기숙사`), each a row list with the optional `th`
and `td` cell texts. -/

/-- One `tr`: the `th` text and `td` text when those cells exist
(`.text()`, not yet trimmed). -/
structure TableRow where
  th : Option String
  td : Option String
deriving Repr, DecidableEq

/-- One day section (`#xxx_list`): the two optional cafeteria tables. -/
structure DaySection where
  staffTable : Option (List TableRow)
  dormTable : Option (List TableRow)
deriving Repr, DecidableEq

/-- The loaded document, projected onto what `parseMenuHtml` selects.  The
`dayIds` table maps each anchor to a Korean day name whose reverse
`DAY_MAPPING` lookup always succeeds for the fixed seven entries, so the
anchor is identified with the `Day` directly. -/
structure HtmlDoc where
  day : Day → Option DaySection

/-- The three meal slots, the images of `MEAL_MAPPING`'s keys. -/
inductive MealType
  | breakfast | lunch | dinner
deriving Repr, DecidableEq

/-- Reverse lookup through `MEAL_MAPPING` (`아침`/`점심`/`저녁`); an unknown
label yields `none` and the row is skipped. -/
def mealFromKorean (k : String) : Option MealType :=
  if k = "아침" then some .breakfast
  else if k = "점심" then some .lunch
  else if k = "저녁" then some .dinner
  else none

/-- `meal[englishMealType] = content`. -/
def Meal.setSlot (m : Meal) : MealType → String → Meal
  | .breakfast, v => { m with breakfast := v }
  | .lunch, v => { m with lunch := v }
  | .dinner, v => { m with dinner := v }

/-- The shared row loop of `parseStaffMenu` / `parseDormitoryMenu`: rows
without both cells are skipped, the `th` text picks the meal slot through
`MEAL_MAPPING` (unknown labels skipped), and a non-empty `td` text is
formatted with the cafeteria's formatter and assigned. -/
def processRows (fmt : String → String) (rows : List TableRow)
    (init : Meal) : Meal :=
  rows.foldl
    (fun meal row =>
      match row.th, row.td with
      | some thText, some tdText =>
        let koreanMealType := trimStr thText
        let mealContent := trimStr tdText
        match mealFromKorean koreanMealType with
        | none => meal
        | some mt =>
          if mealContent = "" then meal else meal.setSlot mt (fmt mealContent)
      | _, _ => meal)
    init

/-- `parseStaffMenu`: missing header or table leaves the day untouched. -/
def parseStaffMenuDay (sec : DaySection) (cur : Meal) : Meal :=
  match sec.staffTable with
  | none => cur
  | some rows => processRows formatStaffMenuContent rows cur

/-- `parseDormitoryMenu`. -/
def parseDormitoryMenuDay (sec : DaySection) (cur : Meal) : Meal :=
  match sec.dormTable with
  | none => cur
  | some rows => processRows formatMenuContent rows cur

/-- One iteration of the `Object.entries(dayIds).forEach` loop. -/
def parseDayStep (doc : HtmlDoc) (md : MenuData) (d : Day) : MenuData :=
  match doc.day d with
  | none => md
  | some sec =>
    let md := { md with
      staff := md.staff.set d (parseStaffMenuDay sec (md.staff.get d)) }
    { md with
      dormitory :=
        md.dormitory.set d (parseDormitoryMenuDay sec (md.dormitory.get d)) }

/-- `parseMenuHtml` (menuParser.ts lines 9-73): reject blank input, then
fill an initialized snapshot from the loaded document, stamping
`lastUpdated` with the invocation-time clock reading `now`
(`new Date().toISOString()`). -/
def parseMenuHtml (load : String → HtmlDoc) (now : String)
    (html : String) : Except String MenuData :=
  if trimStr html = "" then .error "HTML 내용이 비어있습니다"
  else
    let doc := load html
    let init : MenuData :=
      { staff := initializeDayMenu, dormitory := initializeDayMenu,
        lastUpdated := now }
    .ok (daysOfWeek.foldl (parseDayStep doc) init)

/-- A `load` returning a document with no day sections at all. -/
def emptyLoad : String → HtmlDoc := fun _ => { day := fun _ => none }

/-! ## Menu Cache Engine: `MenuService` -/

/-- `MAX_RETRIES` (menuService.ts line 9). -/
def MAX_RETRIES : Nat := 600

/-- The `setTimeout` delay of the retry branch: `60 * 1000` ms. -/
def RETRY_DELAY_MS : Nat := 60 * 1000

/-- The runtime's timer table: `setTimeout` registers a fresh handle with
its delay, `clearTimeout` removes a handle.  Tracking the full pending list
(rather than a single slot) is what makes "at most one pending retry"
falsifiable. -/
structure TimerSys where
  nextId : Nat
  pending : List (Nat × Nat)
deriving Repr, DecidableEq

/-- `setTimeout(cb, delayMs)`: returns the new handle. -/
def TimerSys.setTimeout (t : TimerSys) (delayMs : Nat) : TimerSys × Nat :=
  ({ nextId := t.nextId + 1, pending := t.pending ++ [(t.nextId, delayMs)] },
    t.nextId)

/-- `clearTimeout(h)`. -/
def TimerSys.clearTimeout (t : TimerSys) (h : Nat) : TimerSys :=
  { t with pending := t.pending.filter fun e => e.1 != h }

/-- The mutable fields of `MenuService` plus the Redis menu cache entry
(`knue:menu:weekly`) and the runtime timers. -/
structure MenuServiceState where
  retryCount : Nat
  retryTimeout : Option Nat
  timers : TimerSys
  cache : Option MenuData
deriving Repr, DecidableEq

/-- A fresh service: counter 0, no timer, empty cache. -/
def initialMenuServiceState : MenuServiceState :=
  { retryCount := 0, retryTimeout := none,
    timers := { nextId := 0, pending := [] }, cache := none }

/-- Errors escaping `fetchAndStoreMenuData`. -/
inductive MenuError
  | upstream (msg : String)
  | malformed (msg : String)
deriving Repr, DecidableEq

/-- `MenuService.fetchAndStoreMenuData` (menuService.ts lines 115-163).
The upstream fetch is supplied as its result (`axios.get` wrapped by
`fetchMenuHtml`, whose failure is rethrown); `nowParse` and `nowStamp` are
the two clock readings (inside `parseMenuHtml` and at the `lastUpdated`
assignment).  On the parsed snapshot: if the menu is judged empty the retry
counter is incremented and, below the ceiling, the previous timer (if any)
is cleared and exactly one new 60s timer is set; at the ceiling the counter
resets and no timer is touched.  Otherwise the counter resets and any timer
is cleared.  The snapshot is then written to the cache unconditionally and
returned. -/
def fetchAndStoreMenuData (load : String → HtmlDoc)
    (fetchResult : Except String String) (nowParse nowStamp : String)
    (st : MenuServiceState) :
    Except MenuError (MenuData × MenuServiceState) :=
  match fetchResult with
  | .error e => .error (.upstream e)
  | .ok html =>
    match parseMenuHtml load nowParse html with
    | .error e => .error (.malformed e)
    | .ok parsed =>
      let menuData := { parsed with lastUpdated := nowStamp }
      let st1 :=
        if isMenuEmpty menuData then
          let retryCount := st.retryCount + 1
          if retryCount < MAX_RETRIES then
            let t1 :=
              match st.retryTimeout with
              | some h => st.timers.clearTimeout h
              | none => st.timers
            let sched := t1.setTimeout RETRY_DELAY_MS
            { st with
                retryCount := retryCount
                retryTimeout := some sched.2
                timers := sched.1 }
          else
            { st with retryCount := 0 }
        else
          let t1 :=
            match st.retryTimeout with
            | some h => st.timers.clearTimeout h
            | none => st.timers
          { st with retryCount := 0, retryTimeout := none, timers := t1 }
      .ok (menuData, { st1 with cache := some menuData })

/-- The intended relation between the service's timer handle and the
runtime's pending table: the stored handle is exactly the pending timer,
and every pending handle was issued before `nextId`. -/
def timerInv (st : MenuServiceState) : Prop :=
  (match st.retryTimeout with
   | some h => ∃ d, st.timers.pending = [(h, d)]
   | none => st.timers.pending = []) ∧
    ∀ e ∈ st.timers.pending, e.1 < st.timers.nextId

/-- An all-empty snapshot stamped `t` (what parsing a section-free document
produces). -/
def emptyWeekSnap (t : String) : MenuData :=
  { staff := initializeDayMenu, dormitory := initializeDayMenu,
    lastUpdated := t }

/-- The state after the C4 witness run below. -/
def c4St : MenuServiceState :=
  { retryCount := 1, retryTimeout := some 0,
    timers := { nextId := 1, pending := [(0, 60000)] },
    cache := some (emptyWeekSnap "b") }

/-- A mid-flight state with one pending retry timer, for the C5 witness. -/
def c5StIn : MenuServiceState :=
  { retryCount := 3, retryTimeout := some 7,
    timers := { nextId := 8, pending := [(7, 60000)] }, cache := none }

/-! ## Session Bridge: `AuthService`

Upstream HTTP is supplied as data: `loginToOriginalServer`'s axios call
(with `maxRedirects: 0` and `validateStatus: () => true`) resolves for every
HTTP status, so its response is an input; a rejected promise (transport
failure) is the `Except.error` case of the input.  The signed JWT is
modelled as its payload plus a signature-validity flag, and the two Redis
key families (`auth:token:*`, `auth:refresh:*`) as association lists. -/

/-- `interface CookieData`; `value` is `none` when the cookie string has no
`=` (JS leaves the destructured variable `undefined`). -/
structure CookieData where
  name : String
  value : Option String
  raw : String
deriving Repr, DecidableEq

/-- The raw upstream login response: HTTP status and `set-cookie` headers
(an absent header behaves as the empty list in all the checks below). -/
structure UpstreamResponse where
  status : Nat
  setCookie : List String
deriving Repr, DecidableEq

/-- `interface LoginResponse` (the fields the login flow reads). -/
structure LoginResponse where
  status : Nat
  statusText : String
  parsedCookies : List CookieData
deriving Repr, DecidableEq

/-- Cookie parsing inside `loginToOriginalServer`:
`cookie.split(";")[0].split("=")` giving name and value. -/
def parseSetCookie (cookie : String) : CookieData :=
  let cookieStr := (cookie.splitOn ";").headD ""
  let parts := cookieStr.splitOn "="
  { name := parts.headD "", value := parts[1]?, raw := cookie }

/-- `AuthService.loginToOriginalServer` (authService.ts lines 223-321),
given the resolved upstream response: success is reported if and only if
at least one `Set-Cookie` header arrived AND the raw status is exactly 303;
every other combination is labelled 401 "Login Failed". -/
def loginToOriginalServer (resp : UpstreamResponse) : LoginResponse :=
  let cookies := resp.setCookie
  let hasCookies := !cookies.isEmpty
  let parsedCookies := cookies.map parseSetCookie
  if hasCookies && resp.status == 303 then
    { status := 200, statusText := "Login Successful",
      parsedCookies := parsedCookies }
  else
    { status := 401, statusText := "Login Failed",
      parsedCookies := parsedCookies }

/-- `ACCESS_TOKEN_EXPIRY` = 15 minutes in seconds. -/
def ACCESS_TOKEN_EXPIRY : Nat := 15 * 60

/-- `REFRESH_TOKEN_EXPIRY` = 30 days in seconds. -/
def REFRESH_TOKEN_EXPIRY : Nat := 30 * 24 * 60 * 60

/-- A signed access token: the embedded payload (`userId`, `exp` from
`expiresIn`) plus whether the signature verifies under `SECRET_KEY`. -/
structure JwtToken where
  userId : String
  exp : Nat
  sigValid : Bool
deriving Repr, DecidableEq

/-- `interface RefreshTokenInfo`. -/
structure RefreshTokenInfo where
  id : String
  userId : String
  token : String
  expiresAt : Nat
  createdAt : Nat
deriving Repr, DecidableEq

/-- `interface TokenResponse`. -/
structure TokenResponse where
  accessToken : JwtToken
  refreshToken : String
  expiresIn : Nat
deriving Repr, DecidableEq

/-- The two Redis key families used by the auth service. -/
structure AuthState where
  tokenStore : List (JwtToken × List CookieData)
  refreshStore : List (String × RefreshTokenInfo)
deriving Repr, DecidableEq

/-- An empty credential store. -/
def emptyAuthState : AuthState := { tokenStore := [], refreshStore := [] }

/-- `AuthService.generateTokens` (lines 330-375): mint the signed access
token (15-minute expiry), a fresh refresh UUID with its info record, store
both with their TTLs, and return the pair.  `refreshUuid`/`infoUuid` stand
for the two `uuidv4()` draws. -/
def generateTokens (now : Nat) (refreshUuid infoUuid : String)
    (userId : String) (cookieData : List CookieData) (st : AuthState) :
    TokenResponse × AuthState :=
  let accessToken : JwtToken :=
    { userId := userId, exp := now + ACCESS_TOKEN_EXPIRY, sigValid := true }
  let refreshToken := refreshUuid
  let refreshTokenInfo : RefreshTokenInfo :=
    { id := infoUuid, userId := userId, token := refreshToken,
      expiresAt := now + REFRESH_TOKEN_EXPIRY, createdAt := now }
  let st :=
    { st with refreshStore := (refreshToken, refreshTokenInfo) ::
        st.refreshStore.filter fun e => e.1 != refreshToken }
  let st :=
    { st with tokenStore := (accessToken, cookieData) ::
        st.tokenStore.filter fun e => e.1 != accessToken }
  ({ accessToken := accessToken, refreshToken := refreshToken,
     expiresIn := ACCESS_TOKEN_EXPIRY }, st)

/-- `Object.values(cookie).every(value => value !== "")` for one cookie; an
absent (`undefined`) value passes the `!== ""` test. -/
def cookieFieldsFilled (c : CookieData) : Bool :=
  c.name != "" && c.value != some "" && c.raw != ""

/-- `AuthService.login` (lines 83-109).  After the upstream exchange the
only success check is `!loginResult.parsedCookies || !allFieldsFilled`; the
first disjunct is constantly false (a JS array is truthy) and
`[].every(...)` is vacuously true, so the response status computed by
`loginToOriginalServer` is never consulted.  Failures are rethrown with the
`인증 실패` prefix. -/
def login (upstream : Except String UpstreamResponse) (now : Nat)
    (refreshUuid infoUuid : String) (userNo _password : String)
    (st : AuthState) : Except String (TokenResponse × AuthState) :=
  match upstream with
  | .error msg => .error ("인증 실패: 로그인 실패: " ++ msg)
  | .ok resp =>
    let loginResult := loginToOriginalServer resp
    let allFieldsFilled := loginResult.parsedCookies.all cookieFieldsFilled
    let cookiesFalsy := false
    if cookiesFalsy || !allFieldsFilled then
      .error "인증 실패: 로그인 성공했지만 쿠키 데이터가 없습니다"
    else
      .ok (generateTokens now refreshUuid infoUuid userNo
        loginResult.parsedCookies st)

/-- The two failure modes of `jwt.verify`: `JsonWebTokenError` on a bad
signature, `TokenExpiredError` when the signature is valid but
`now >= exp`. -/
inductive JwtError
  | invalid
  | expired
deriving Repr, DecidableEq

/-- `jwt.verify(token, SECRET_KEY)`: signature first, then expiry. -/
def jwtVerify (now : Nat) (t : JwtToken) : Except JwtError String :=
  if !t.sigValid then .error .invalid
  else if t.exp ≤ now then .error .expired
  else .ok t.userId

/-- `interface TokenVerificationResult`. -/
structure TokenVerificationResult where
  valid : Bool
  userId : Option String
  error : Option String
deriving Repr, DecidableEq

/-- `AuthService.verifyAccessToken` (lines 116-133): any `jwt.verify`
exception — bad signature or expiry alike — is caught by the single
`catch` and mapped to `유효하지 않은 토큰입니다`; with a verified token, a
missing `auth:token:*` entry maps to
`토큰이 만료되었거나 무효화되었습니다`; otherwise the decoded `userId` is
returned. -/
def verifyAccessToken (st : AuthState) (now : Nat) (t : JwtToken) :
    TokenVerificationResult :=
  match jwtVerify now t with
  | .error _ =>
    { valid := false, userId := none,
      error := some "유효하지 않은 토큰입니다" }
  | .ok decodedUserId =>
    match st.tokenStore.lookup t with
    | none =>
      { valid := false, userId := none,
        error := some "토큰이 만료되었거나 무효화되었습니다" }
    | some _ =>
      { valid := true, userId := some decodedUserId, error := none }

/-! ## Trip-history extraction (`parseTripHistory`) -/

/-- `interface TripItem` (the `status`/`tripType`/`tripTargetPlace` fields
are always assigned before push). -/
structure TripItem where
  startDate : String
  endDate : String
  seq : String
  status : String
  tripType : String
  tripTargetPlace : String
deriving Repr, DecidableEq

/-- `[^>]*?lit` (lazy gap, then a literal): scan forward for the literal,
failing at the first `>` (the gap class excludes it). -/
def findLitNoGt (lit : List Char) : List Char → Option (List Char)
  | [] => consumeLit lit []
  | c :: cs =>
    match consumeLit lit (c :: cs) with
    | some rest => some rest
    | none => if c = '>' then none else findLitNoGt lit cs

/-- `[\s\S]*?lit`: scan forward for the first occurrence of the literal. -/
def findLit (lit : List Char) : List Char → Option (List Char)
  | [] => consumeLit lit []
  | c :: cs =>
    match consumeLit lit (c :: cs) with
    | some rest => some rest
    | none => findLit lit cs

/-- `form.includes(lit)`. -/
def containsLit (lit l : List Char) : Bool := (findLit lit l).isSome

/-- One match of the trip-form regex
`<form(?:[^>]*?)class="tripCancelForm"(?:[^>]*?)data-ajax="false"[\s\S]*?<\/form>`
starting at this position: the matched substring and the rest. -/
def matchTripForm (l : List Char) : Option (List Char × List Char) :=
  (consumeLit "<form".toList l).bind fun r0 =>
    (findLitNoGt "class=\"tripCancelForm\"".toList r0).bind fun r1 =>
      (findLitNoGt "data-ajax=\"false\"".toList r1).bind fun r2 =>
        (findLit "</form>".toList r2).map fun r3 =>
          (l.take (l.length - r3.length), r3)

/-- The global scan `htmlContent.match(tripFormRegex)`: non-overlapping
matches, left to right.  Every match consumes at least the `<form` prefix,
so `l.length` units of fuel suffice. -/
def tripFormsAux : Nat → List Char → List (List Char)
  | 0, _ => []
  | _ + 1, [] => []
  | fuel + 1, c :: cs =>
    match matchTripForm (c :: cs) with
    | some (form, rest) => form :: tripFormsAux fuel rest
    | none => tripFormsAux fuel cs

/-- All trip-form matches (`null` from `String.match` and the empty array
coincide in what the caller does with them). -/
def tripForms (l : List Char) : List (List Char) :=
  tripFormsAux l.length l

/-- The `(.*?)` capture before `</td>`: characters up to the first close
tag; `.` matches no line terminator, so one of those aborts this start
position. -/
def captureToTdClose : List Char → Option (List Char)
  | [] => none
  | c :: cs =>
    match consumeLit "</td>".toList (c :: cs) with
    | some _ => some []
    | none =>
      if c = '\n' || c = '\r' || c.val = 0x2028 || c.val = 0x2029 then none
      else (captureToTdClose cs).map (c :: ·)

/-- `<th>LABEL<\/th>\s*<td>(.*?)<\/td>` anchored at this position. -/
def tryThTd (label : List Char) (l : List Char) : Option (List Char) :=
  (consumeLit ("<th>".toList ++ label ++ "</th>".toList) l).bind fun r =>
    (consumeLit "<td>".toList (r.dropWhile jsWs)).bind fun r2 =>
      captureToTdClose r2

/-- First match of the `th`/`td` pattern anywhere in the form (the regex
engine advances the start position until the whole pattern matches). -/
def findThTd (label : List Char) : List Char → Option (List Char)
  | [] => none
  | c :: cs =>
    match tryThTd label (c :: cs) with
    | some cap => some cap
    | none => findThTd label cs

/-- `\d{2}\.\d{2}\.\d{2}` at this position: the eight matched characters
and the rest. -/
def consumeDateDigits (l : List Char) : Option (List Char × List Char) :=
  match l with
  | a :: b :: '.' :: c :: d :: '.' :: e :: f :: rest =>
    if a.isDigit && b.isDigit && c.isDigit && d.isDigit && e.isDigit &&
        f.isDigit then
      some ([a, b, '.', c, d, '.', e, f], rest)
    else none
  | _ => none

/-- `[\s\S]*?` then the date pattern: first date occurrence. -/
def scanDate : List Char → Option (List Char × List Char)
  | [] => none
  | c :: cs =>
    match consumeDateDigits (c :: cs) with
    | some r => some r
    | none => scanDate cs

/-- `<th>LABEL<\/th>\s*<td>[\s\S]*?(\d{2}\.\d{2}\.\d{2})[\s\S]*?<\/td>`
anchored at this position (the lazy tail only requires some later
`</td>`). -/
def tryThTdDate (label : List Char) (l : List Char) : Option (List Char) :=
  (consumeLit ("<th>".toList ++ label ++ "</th>".toList) l).bind fun r =>
    (consumeLit "<td>".toList (r.dropWhile jsWs)).bind fun r2 =>
      (scanDate r2).bind fun p =>
        (findLit "</td>".toList p.2).map fun _ => p.1

/-- First match of the date pattern anywhere in the form. -/
def findThTdDate (label : List Char) : List Char → Option (List Char)
  | [] => none
  | c :: cs =>
    match tryThTdDate label (c :: cs) with
    | some cap => some cap
    | none => findThTdDate label cs

/-- `<input type="hidden" name="seq" value="(\d+)">` at this position. -/
def trySeq (l : List Char) : Option (List Char) :=
  (consumeLit "<input type=\"hidden\" name=\"seq\" value=\"".toList l).bind
    fun r =>
      let ds := r.takeWhile Char.isDigit
      match r.dropWhile Char.isDigit with
      | '"' :: '>' :: _ => if ds.isEmpty then none else some ds
      | _ => none

/-- First `seq` hidden input in the form. -/
def findSeq : List Char → Option (List Char)
  | [] => none
  | c :: cs =>
    match trySeq (c :: cs) with
    | some d => some d
    | none => findSeq cs

/-- `tripType.replace(/^\d+\.\s*/, "")`: strip a leading numbering such as
`1. `. -/
def stripNumDotPrefix (l : List Char) : List Char :=
  let ds := l.takeWhile Char.isDigit
  if ds.isEmpty then l
  else
    match l.dropWhile Char.isDigit with
    | '.' :: rest => rest.dropWhile jsWs
    | _ => l

/-- The per-form body of the `tripForms.forEach` loop: extract the six
fields with their fallbacks and classify the status. -/
def extractTripItem (form : List Char) : TripItem :=
  let tripType0 :=
    match findThTd "외박구분".toList form with
    | some cap => cap
    | none => "정보 없음".toList
  let tripType := stripNumDotPrefix tripType0
  let tripTargetPlace :=
    match findThTd "외박지역".toList form with
    | some cap => cap
    | none => "정보 없음".toList
  let startDate :=
    match findThTdDate "출관일시".toList form with
    | some d => d
    | none => "날짜 없음".toList
  let endDate :=
    match findThTdDate "귀관일시".toList form with
    | some d => d
    | none => "날짜 없음".toList
  let seq :=
    match findSeq form with
    | some d => d
    | none => "시퀀스 없음".toList
  let isApproved :=
    containsLit
      "<font color=blue><b>외박신청이 승인되었습니다.</b></font>".toList form
  let hasCancelButton :=
    containsLit "class=\"tripCancelBtn\">신청취소</a>".toList form ||
      containsLit "class=\"tripCancelBtn\" >신청취소</a>".toList form
  let status :=
    if isApproved then "승인됨"
    else if hasCancelButton then "취소 가능"
    else "대기중"
  { startDate := ⟨startDate⟩, endDate := ⟨endDate⟩, seq := ⟨seq⟩,
    status := status, tripType := ⟨tripType⟩,
    tripTargetPlace := ⟨tripTargetPlace⟩ }

/-- `parseTripHistory` (the trip utility module, lines 515-601): every
matched form contributes exactly one pushed `TripItem`; a missing match set
gives the empty array (and the surrounding `try`/`catch` also returns the
empty array on any runtime error — all operations here are total). -/
def parseTripHistory (htmlContent : String) : List TripItem :=
  let forms := tripForms htmlContent.toList
  forms.map extractTripItem

/-- An access token that is signature-valid but already expired at clock
reading 1000. -/
def tokExpiredEx : JwtToken := { userId := "u", exp := 5, sigValid := true }

/-- An access token whose signature check fails. -/
def tokBadSigEx : JwtToken :=
  { userId := "u", exp := 5000, sigValid := false }

/-- A signature-valid, unexpired access token. -/
def tokOkEx : JwtToken := { userId := "u2", exp := 2000, sigValid := true }

/-! ## Theorems -/

/-- The two redundantly-written emptiness tests of a staff day both mean
"the string is empty". -/
theorem staffDayUnfilled_eq_false (m : Meal) :
    staffDayUnfilled m = false ↔ m.lunch ≠ "" ∧ m.dinner ≠ "" := by
  have hlen : ∀ s : String, s.length = 0 ↔ s = "" := by
    intro s
    constructor
    · intro h
      exact String.ext (List.length_eq_zero.mp h)
    · intro h
      subst h
      rfl
  simp [staffDayUnfilled, hlen, and_comm]

/-- The analogous reading of the dormitory-day test. -/
theorem dormDayUnfilled_eq_false (m : Meal) :
    dormDayUnfilled m = false ↔
      m.breakfast ≠ "" ∧ m.lunch ≠ "" ∧ m.dinner ≠ "" := by
  have hlen : ∀ s : String, s.length = 0 ↔ s = "" := by
    intro s
    constructor
    · intro h
      exact String.ext (List.length_eq_zero.mp h)
    · intro h
      subst h
      rfl
  simp [dormDayUnfilled, hlen]
  tauto

/-- C1 counterexample: in `c1Example` the Monday staff day has both lunch
and dinner filled, so the claimed conjunctive policy judges the snapshot
complete, yet the code's `isMenuEmpty` judges it incomplete (retry-worthy):
the code implements the disjunctive any-gap policy, not the claimed
conjunctive all-empty policy. -/
theorem isMenuEmpty_diverges_from_spec_policy :
    (c1Example.staff.get .monday).lunch ≠ "" ∧
      (c1Example.staff.get .monday).dinner ≠ "" ∧
      isMenuEmpty c1Example = true ∧ specIncompleteMenu c1Example = false := by
  refine ⟨?_, ?_, rfl, rfl⟩ <;> decide

/-- C1 amended: a parsed snapshot is judged complete (no retry) iff EVERY
weekday staff day has lunch and dinner non-empty AND EVERY one of the seven
dormitory days has all three meals non-empty; equivalently it is judged
incomplete as soon as ANY of those slots is empty (disjunctive per-day
any-gap policy, with the same per-day "filled" definitions as the claim). -/
theorem isMenuEmpty_eq_false_iff_all_filled (md : MenuData) :
    isMenuEmpty md = false ↔
      ((∀ d ∈ weekdays,
          (md.staff.get d).lunch ≠ "" ∧ (md.staff.get d).dinner ≠ "") ∧
        ∀ d ∈ daysOfWeek,
          (md.dormitory.get d).breakfast ≠ "" ∧
            (md.dormitory.get d).lunch ≠ "" ∧
            (md.dormitory.get d).dinner ≠ "") := by
  simp only [isMenuEmpty, Bool.or_eq_false_iff, List.any_eq_false,
    Bool.not_eq_true]
  constructor
  · rintro ⟨hs, hd⟩
    exact ⟨fun d hd2 => (staffDayUnfilled_eq_false _).mp (hs d hd2),
      fun d hd2 => (dormDayUnfilled_eq_false _).mp (hd d hd2)⟩
  · rintro ⟨hs, hd⟩
    exact ⟨fun d hd2 => (staffDayUnfilled_eq_false _).mpr (hs d hd2),
      fun d hd2 => (dormDayUnfilled_eq_false _).mpr (hd d hd2)⟩

/-- C1 witness: the fully filled example snapshot is judged complete. -/
theorem isMenuEmpty_eq_false_iff_all_filled_witness :
    isMenuEmpty fullMenuExample = false :=
  (isMenuEmpty_eq_false_iff_all_filled fullMenuExample).mpr (by decide)

/-- C2: `loginToOriginalServer` itself labels an HTTP 200 response with no
`Set-Cookie` headers "Login Failed" (status 401), yet `login` — which never
consults that status and whose `allFieldsFilled` check is vacuously true on
an empty cookie array — mints and returns a bearer/refresh pair for the
very same response instead of failing with an authentication error. -/
theorem login_200_no_cookies_mints_tokens :
    loginToOriginalServer { status := 200, setCookie := [] } =
      { status := 401, statusText := "Login Failed", parsedCookies := [] } ∧
      login (.ok { status := 200, setCookie := [] }) 0 "r" "i" "12345" "pw"
          emptyAuthState =
        .ok (generateTokens 0 "r" "i" "12345" [] emptyAuthState) :=
  ⟨rfl, rfl⟩

/-- C3 counterexample: an expired-but-signature-valid token and an
invalid-signature token produce the identical verification result (the one
`catch` collapses `TokenExpiredError` and `JsonWebTokenError`), refuting
the claim that the three failure modes come with three distinct errors. -/
theorem verify_expired_equals_invalid :
    verifyAccessToken emptyAuthState 1000 tokExpiredEx =
      verifyAccessToken emptyAuthState 1000 tokBadSigEx ∧
      verifyAccessToken emptyAuthState 1000 tokExpiredEx =
        { valid := false, userId := none,
          error := some "유효하지 않은 토큰입니다" } :=
  ⟨rfl, rfl⟩

/-- C3 amended: `verify` distinguishes only two failure modes — one shared
invalid-token error whenever `jwt.verify` throws (bad signature OR expiry),
and a distinct revoked/expired-store error when the signature verifies and
the token is unexpired but no Credential Store entry exists; only full
success returns the userId. -/
theorem verifyAccessToken_two_failure_modes (st : AuthState) (now : Nat)
    (t : JwtToken) :
    ((t.sigValid = false ∨ t.exp ≤ now) →
        verifyAccessToken st now t =
          { valid := false, userId := none,
            error := some "유효하지 않은 토큰입니다" }) ∧
      (t.sigValid = true → now < t.exp → st.tokenStore.lookup t = none →
        verifyAccessToken st now t =
          { valid := false, userId := none,
            error := some "토큰이 만료되었거나 무효화되었습니다" }) ∧
      ∀ cd, t.sigValid = true → now < t.exp →
        st.tokenStore.lookup t = some cd →
        verifyAccessToken st now t =
          { valid := true, userId := some t.userId, error := none } := by
  refine ⟨fun h => ?_, fun hs hn hl => ?_, fun cd hs hn hl => ?_⟩
  · rcases h with h | h
    · simp [verifyAccessToken, jwtVerify, h]
    · rcases hs : t.sigValid with _ | _
      · simp [verifyAccessToken, jwtVerify, hs]
      · simp [verifyAccessToken, jwtVerify, hs, h]
  · simp [verifyAccessToken, jwtVerify, hs, Nat.not_le.mpr hn, hl]
  · simp [verifyAccessToken, jwtVerify, hs, Nat.not_le.mpr hn, hl]

/-- C3 witness: the amended case analysis evaluated on a stored, valid,
unexpired token. -/
theorem verifyAccessToken_two_failure_modes_witness :
    verifyAccessToken
        { tokenStore := [(tokOkEx, [])], refreshStore := [] } 1000 tokOkEx =
      { valid := true, userId := some "u2", error := none } :=
  (verifyAccessToken_two_failure_modes
      { tokenStore := [(tokOkEx, [])], refreshStore := [] } 1000
      tokOkEx).2.2 [] rfl (by decide) rfl

/-- C4: every successful `fetchAndStoreMenuData` stamps `lastUpdated` with
the wall-clock reading and writes the returned snapshot to the cache
unconditionally — with no hypothesis on the completeness judgement, so in
particular also when `isMenuEmpty` holds. -/
theorem fetchAndStore_caches_and_returns (load : String → HtmlDoc)
    (fetchResult : Except String String) (nowParse nowStamp : String)
    (st : MenuServiceState) (snap : MenuData) (st' : MenuServiceState)
    (h : fetchAndStoreMenuData load fetchResult nowParse nowStamp st =
      .ok (snap, st')) :
    st'.cache = some snap ∧ snap.lastUpdated = nowStamp := by
  cases fetchResult with
  | error e => simp [fetchAndStoreMenuData] at h
  | ok html =>
    cases hp : parseMenuHtml load nowParse html with
    | error e => simp [fetchAndStoreMenuData, hp] at h
    | ok parsed =>
      simp only [fetchAndStoreMenuData, hp, Except.ok.injEq,
        Prod.mk.injEq] at h
      obtain ⟨h1, h2⟩ := h
      subst h1
      subst h2
      exact ⟨rfl, rfl⟩

/-- C4 witness: a run over a section-free document (whose snapshot is
judged incomplete) still caches and returns the snapshot. -/
theorem fetchAndStore_caches_and_returns_witness :
    c4St.cache = some (emptyWeekSnap "b") ∧
      (emptyWeekSnap "b").lastUpdated = "b" :=
  fetchAndStore_caches_and_returns emptyLoad (.ok "x") "a" "b"
    initialMenuServiceState (emptyWeekSnap "b") c4St rfl

/-- C5: the retry scheduler's discipline over one (successful) refresh.
Starting from a state whose stored handle matches the runtime timer table,
(a) the relation is preserved and at most one retry is pending afterwards;
(b) on an incomplete result with the incremented counter under the ceiling
of 600, the counter is incremented and exactly one fresh 60-second timer is
pending, every previously pending timer having been cancelled; (c) on a
complete result the counter resets to zero and no retry is pending; (d) at
the ceiling nothing is scheduled or cancelled and the counter resets. -/
theorem fetchAndStore_retry_discipline (load : String → HtmlDoc)
    (fetchResult : Except String String) (nowParse nowStamp : String)
    (st : MenuServiceState) (snap : MenuData) (st' : MenuServiceState)
    (hInv : timerInv st)
    (h : fetchAndStoreMenuData load fetchResult nowParse nowStamp st =
      .ok (snap, st')) :
    timerInv st' ∧ st'.timers.pending.length ≤ 1 ∧
      (isMenuEmpty snap = true → st.retryCount + 1 < 600 →
        st'.retryCount = st.retryCount + 1 ∧
          st'.retryTimeout = some st.timers.nextId ∧
          st'.timers.pending = [(st.timers.nextId, 60 * 1000)] ∧
          ∀ e ∈ st.timers.pending, e ∉ st'.timers.pending) ∧
      (isMenuEmpty snap = false →
        st'.retryCount = 0 ∧ st'.retryTimeout = none ∧
          st'.timers.pending = []) ∧
      (isMenuEmpty snap = true → 600 ≤ st.retryCount + 1 →
        st'.retryCount = 0 ∧ st'.timers = st.timers ∧
          st'.retryTimeout = st.retryTimeout) := by
  have hM : MAX_RETRIES = 600 := rfl
  cases fetchResult with
  | error e => simp [fetchAndStoreMenuData] at h
  | ok html =>
    cases hp : parseMenuHtml load nowParse html with
    | error e => simp [fetchAndStoreMenuData, hp] at h
    | ok parsed =>
      simp only [fetchAndStoreMenuData, hp, Except.ok.injEq,
        Prod.mk.injEq] at h
      obtain ⟨h1, h2⟩ := h
      subst h1
      subst h2
      obtain ⟨hShape, hFresh⟩ := hInv
      have hPend : (match st.retryTimeout with
          | some h0 => st.timers.clearTimeout h0
          | none => st.timers).pending = [] := by
        cases hT : st.retryTimeout with
        | none => rw [hT] at hShape; exact hShape
        | some h0 =>
          rw [hT] at hShape
          obtain ⟨d0, hP⟩ := hShape
          simp [TimerSys.clearTimeout, hP]
      have hNext : (match st.retryTimeout with
          | some h0 => st.timers.clearTimeout h0
          | none => st.timers).nextId = st.timers.nextId := by
        cases hT : st.retryTimeout <;> simp [TimerSys.clearTimeout]
      by_cases hE : isMenuEmpty { parsed with lastUpdated := nowStamp } = true
      · by_cases hc : st.retryCount + 1 < 600
        · -- incomplete, under the ceiling: cancel (if any) and reschedule
          simp only [hE, if_true, hM, hc, if_pos, TimerSys.setTimeout,
            RETRY_DELAY_MS]
          rw [hPend, hNext]
          refine ⟨?_, ?_, ?_, ?_, ?_⟩
          · refine ⟨⟨60 * 1000, by simp⟩, ?_⟩
            intro e he
            simp only [List.nil_append, List.mem_singleton] at he
            rw [he]
            exact Nat.lt_succ_self _
          · simp
          · intro _ _
            refine ⟨trivial, rfl, by simp, ?_⟩
            intro e he
            simp only [List.nil_append, List.mem_singleton]
            intro hq
            have hlt := hFresh e he
            rw [hq] at hlt
            simp at hlt
          · intro hcontra
            cases hcontra
          · intro _ hge
            exact absurd hc (Nat.not_lt.mpr hge)
        · -- incomplete at the ceiling: reset only
          simp only [hE, if_true, hM, hc, if_neg, if_false]
          refine ⟨⟨hShape, hFresh⟩, ?_, ?_, ?_, ?_⟩
          · cases hT : st.retryTimeout with
            | none => rw [hT] at hShape; simp [hShape]
            | some h0 =>
              rw [hT] at hShape
              obtain ⟨d0, hP⟩ := hShape
              simp [hP]
          · intro _ hlt
            exact hlt.elim
          · intro hcontra
            cases hcontra
          · intro _ _
            refine ⟨?_, ?_, ?_⟩ <;> trivial
      · -- complete: reset and cancel
        rw [Bool.not_eq_true] at hE
        simp only [hE, Bool.false_eq_true, if_false]
        rw [hPend]
        refine ⟨?_, ?_, ?_, ?_, ?_⟩
        · simp only [timerInv]
          rw [hPend]
          exact ⟨rfl, fun e he => nomatch he⟩
        · simp
        · intro hcontra
          cases hcontra
        · intro _
          refine ⟨?_, ?_, ?_⟩ <;> trivial
        · intro hcontra
          cases hcontra

/-- C5 witness: a refresh from a state with one pending timer, yielding an
incomplete snapshot under the ceiling, ends with exactly the fresh timer
pending. -/
theorem fetchAndStore_retry_discipline_witness :
    ∃ st', fetchAndStoreMenuData emptyLoad (.ok "menu") "p" "q" c5StIn =
        .ok (emptyWeekSnap "q", st') ∧
      st'.timers.pending = [(8, 60 * 1000)] ∧ st'.retryCount = 4 := by
  refine ⟨_, rfl, ?_, ?_⟩
  · exact (fetchAndStore_retry_discipline emptyLoad (.ok "menu") "p" "q"
      c5StIn (emptyWeekSnap "q") _ ⟨⟨60000, rfl⟩, by decide⟩ rfl).2.2.1
      rfl (by decide) |>.2.2.1
  · exact (fetchAndStore_retry_discipline emptyLoad (.ok "menu") "p" "q"
      c5StIn (emptyWeekSnap "q") _ ⟨⟨60000, rfl⟩, by decide⟩ rfl).2.2.1
      rfl (by decide) |>.1

/-- C8 counterexample: parsing the identical input at two different clock
readings yields different snapshots — the `lastUpdated` field is stamped
from the invocation-time clock, so re-parsing is not byte-identical in
every field. -/
theorem parse_not_identical_across_times :
    parseMenuHtml emptyLoad "2025-01-01T00:00:00Z" "x" ≠
      parseMenuHtml emptyLoad "2025-01-01T00:00:01Z" "x" := by
  have e1 : parseMenuHtml emptyLoad "2025-01-01T00:00:00Z" "x" =
      .ok (emptyWeekSnap "2025-01-01T00:00:00Z") := rfl
  have e2 : parseMenuHtml emptyLoad "2025-01-01T00:00:01Z" "x" =
      .ok (emptyWeekSnap "2025-01-01T00:00:01Z") := rfl
  rw [e1, e2]
  intro h
  have h2 := congrArg MenuData.lastUpdated (Except.ok.inj h)
  exact absurd h2 (by decide)

/-- `parseDayStep` reads and writes only the two schedules. -/
theorem parseDayStep_congr (doc : HtmlDoc) (d : Day) (md1 md2 : MenuData)
    (hs : md1.staff = md2.staff) (hd : md1.dormitory = md2.dormitory) :
    (parseDayStep doc md1 d).staff = (parseDayStep doc md2 d).staff ∧
      (parseDayStep doc md1 d).dormitory =
        (parseDayStep doc md2 d).dormitory := by
  cases hday : doc.day d <;> simp [parseDayStep, hday, hs, hd]

/-- The day fold computes both schedules from the document and the starting
schedules alone. -/
theorem foldDays_congr (doc : HtmlDoc) :
    ∀ (ds : List Day) (md1 md2 : MenuData), md1.staff = md2.staff →
      md1.dormitory = md2.dormitory →
      (List.foldl (parseDayStep doc) md1 ds).staff =
          (List.foldl (parseDayStep doc) md2 ds).staff ∧
        (List.foldl (parseDayStep doc) md1 ds).dormitory =
          (List.foldl (parseDayStep doc) md2 ds).dormitory := by
  intro ds
  induction ds with
  | nil => intro md1 md2 hs hd; exact ⟨hs, hd⟩
  | cons d ds ih =>
    intro md1 md2 hs hd
    obtain ⟨hs2, hd2⟩ := parseDayStep_congr doc d md1 md2 hs hd
    exact ih (parseDayStep doc md1 d) (parseDayStep doc md2 d) hs2 hd2

/-- C8 amended: the staff and dormitory schedules are deterministic
functions of the HTML alone — two successful parses of identical input, at
any two clock readings, agree on both schedules; only `lastUpdated`
reflects the invocation time. -/
theorem parse_staff_dorm_deterministic (load : String → HtmlDoc)
    (t1 t2 html : String) (md1 md2 : MenuData)
    (h1 : parseMenuHtml load t1 html = .ok md1)
    (h2 : parseMenuHtml load t2 html = .ok md2) :
    md1.staff = md2.staff ∧ md1.dormitory = md2.dormitory := by
  by_cases hb : trimStr html = ""
  · simp [parseMenuHtml, hb] at h1
  · simp only [parseMenuHtml, hb, if_false, Except.ok.injEq] at h1 h2
    subst h1
    subst h2
    exact foldDays_congr (load html) daysOfWeek _ _ rfl rfl

/-- C8 amended witness: two parses of `"x"` at different times agree on the
schedules. -/
theorem parse_staff_dorm_deterministic_witness :
    (emptyWeekSnap "t1").staff = (emptyWeekSnap "t2").staff ∧
      (emptyWeekSnap "t1").dormitory = (emptyWeekSnap "t2").dormitory :=
  parse_staff_dorm_deterministic emptyLoad "t1" "t2" "x"
    (emptyWeekSnap "t1") (emptyWeekSnap "t2") rfl rfl

/-- C9: `parseMenuHtml` fails — with the malformed-input error — exactly on
blank input; on every other input it returns a snapshot, for every possible
document the (total, never-throwing) HTML loader may produce, in particular
one whose parsed menu content is entirely empty. -/
theorem parse_error_iff_blank (load : String → HtmlDoc) (now html : String) :
    (trimStr html = "" →
        parseMenuHtml load now html = .error "HTML 내용이 비어있습니다") ∧
      (trimStr html ≠ "" → ∃ md, parseMenuHtml load now html = .ok md) := by
  constructor
  · intro h
    simp [parseMenuHtml, h]
  · intro h
    refine ⟨List.foldl (parseDayStep (load html))
      { staff := initializeDayMenu, dormitory := initializeDayMenu,
        lastUpdated := now } daysOfWeek, ?_⟩
    simp [parseMenuHtml, h]

/-- C9 witness: a non-blank input whose menu content is entirely empty
still parses successfully. -/
theorem parse_error_iff_blank_witness :
    ∃ md, parseMenuHtml emptyLoad "t" "<html>" = .ok md :=
  (parse_error_iff_blank emptyLoad "t" "<html>").2 (by decide)

/-- C10: `parseTripHistory` is total by construction (every embedded
operation is; the source's `catch` → `[]` guard is unreachable), returns
the empty array when no trip form matches, and otherwise returns exactly
one `TripItem` per matched form. -/
theorem parseTripHistory_total_and_counts (html : String) :
    (tripForms html.toList = [] → parseTripHistory html = []) ∧
      (parseTripHistory html).length = (tripForms html.toList).length := by
  have e : parseTripHistory html =
      (tripForms html.toList).map extractTripItem := rfl
  constructor
  · intro h
    rw [e, h]
    rfl
  · rw [e]
    simp

/-- C10 witness: an input without trip forms yields the empty array. -/
theorem parseTripHistory_total_and_counts_witness :
    parseTripHistory "no forms here" = [] :=
  (parseTripHistory_total_and_counts "no forms here").1 (by decide)

/-- Characters of a replace pass come from the replacement or the input. -/
theorem mem_replacePassAux (m : List Char → Option Nat) (rep : List Char) :
    ∀ (fuel : Nat) (l : List Char) (c : Char),
      c ∈ replacePassAux m rep fuel l → c ∈ rep ∨ c ∈ l := by
  intro fuel
  induction fuel with
  | zero => exact fun l c hc => Or.inr hc
  | succ fuel ih =>
    intro l c hc
    cases l with
    | nil => cases hc
    | cons a cs =>
      rw [replacePassAux] at hc
      cases hm : m (a :: cs) with
      | none =>
        rw [hm] at hc
        rcases List.mem_cons.mp hc with h | h
        · exact Or.inr (h ▸ List.mem_cons_self a cs)
        · rcases ih cs c h with h2 | h2
          · exact Or.inl h2
          · exact Or.inr (List.mem_cons_of_mem a h2)
      | some n =>
        rw [hm] at hc
        cases n with
        | zero =>
          rcases List.mem_cons.mp hc with h | h
          · exact Or.inr (h ▸ List.mem_cons_self a cs)
          · rcases ih cs c h with h2 | h2
            · exact Or.inl h2
            · exact Or.inr (List.mem_cons_of_mem a h2)
        | succ n =>
          rcases List.mem_append.mp hc with h | h
          · exact Or.inl h
          · rcases ih (cs.drop n) c h with h2 | h2
            · exact Or.inl h2
            · exact Or.inr
                (List.mem_cons_of_mem a (List.drop_subset n cs h2))

/-- `replacePass` version of the character provenance lemma. -/
theorem mem_replacePass (m : List Char → Option Nat) (rep : List Char)
    (l : List Char) (c : Char) (hc : c ∈ replacePass m rep l) :
    c ∈ rep ∨ c ∈ l :=
  mem_replacePassAux m rep l.length l c hc

/-- Characters of a single-character replace. -/
theorem mem_replaceCharAll (t r : Char) (l : List Char) (c : Char)
    (hc : c ∈ replaceCharAll t r l) : c = r ∨ (c ∈ l ∧ c ≠ t) := by
  rcases List.mem_map.mp hc with ⟨a, ha, hae⟩
  by_cases hat : a = t
  · rw [hat] at hae
    simp only [if_pos rfl] at hae
    exact Or.inl hae.symm
  · rw [if_neg hat] at hae
    exact Or.inr ⟨hae ▸ ha, hae ▸ hat⟩

/-- `trimJs` only removes characters. -/
theorem mem_trimJs (l : List Char) (c : Char) (hc : c ∈ trimJs l) :
    c ∈ l := by
  unfold trimJs at hc
  rw [List.mem_reverse] at hc
  have h1 := (List.dropWhile_suffix jsWs).subset hc
  rw [List.mem_reverse] at h1
  exact (List.dropWhile_suffix jsWs).subset h1

/-- `splitOnSpace` never produces the empty piece list. -/
theorem splitOnSpace_ne_nil : ∀ l : List Char, splitOnSpace l ≠ [] := by
  intro l
  induction l with
  | nil => simp [splitOnSpace]
  | cons a cs ih =>
    rw [splitOnSpace]
    by_cases ha : a = ' '
    · simp [ha]
    · rw [if_neg ha]
      cases h : splitOnSpace cs with
      | nil => simp
      | cons t ts => simp

/-- Characters of the split pieces come from the input and are not the
separator. -/
theorem mem_splitOnSpace :
    ∀ (l : List Char) (p : List Char), p ∈ splitOnSpace l →
      ∀ c ∈ p, c ∈ l ∧ c ≠ ' ' := by
  intro l
  induction l with
  | nil =>
    intro p hp c hc
    rw [splitOnSpace, List.mem_singleton] at hp
    rw [hp] at hc
    cases hc
  | cons a cs ih =>
    intro p hp c hc
    rw [splitOnSpace] at hp
    by_cases ha : a = ' '
    · rw [if_pos ha] at hp
      rcases List.mem_cons.mp hp with h | h
      · rw [h] at hc
        cases hc
      · obtain ⟨h1, h2⟩ := ih p h c hc
        exact ⟨List.mem_cons_of_mem a h1, h2⟩
    · rw [if_neg ha] at hp
      cases hsp : splitOnSpace cs with
      | nil => exact absurd hsp (splitOnSpace_ne_nil cs)
      | cons t ts =>
        rw [hsp] at hp
        rcases List.mem_cons.mp hp with h | h
        · rw [h] at hc
          rcases List.mem_cons.mp hc with h2 | h2
          · exact ⟨h2 ▸ List.mem_cons_self a cs, h2 ▸ ha⟩
          · obtain ⟨h3, h4⟩ :=
              ih t (hsp ▸ List.mem_cons_self t ts) c h2
            exact ⟨List.mem_cons_of_mem a h3, h4⟩
        · obtain ⟨h3, h4⟩ := ih p (hsp ▸ List.mem_cons_of_mem t h) c hc
          exact ⟨List.mem_cons_of_mem a h3, h4⟩

/-- Characters of the comma join come from the pieces or are commas. -/
theorem mem_joinCommas :
    ∀ (ps : List (List Char)) (c : Char), c ∈ joinCommas ps →
      c = ',' ∨ ∃ p ∈ ps, c ∈ p := by
  intro ps
  induction ps with
  | nil =>
    intro c hc
    cases hc
  | cons p ps ih =>
    intro c hc
    cases ps with
    | nil =>
      exact Or.inr ⟨p, List.mem_singleton.mpr rfl, hc⟩
    | cons q qs =>
      have he : joinCommas (p :: q :: qs) =
          p ++ ',' :: joinCommas (q :: qs) := rfl
      rw [he] at hc
      rcases List.mem_append.mp hc with h | h
      · exact Or.inr ⟨p, List.mem_cons_self p _, h⟩
      · rcases List.mem_cons.mp h with h2 | h2
        · exact Or.inl h2
        · rcases ih c h2 with h3 | ⟨r, hr, hcr⟩
          · exact Or.inl h3
          · exact Or.inr ⟨r, List.mem_cons_of_mem p hr, hcr⟩

/-- `toList` of a literal string structure is its character list. -/
theorem toList_mk (l : List Char) : (String.mk l).toList = l := rfl

/-- Bracket stripping only deletes characters. -/
theorem mem_staffStripBrackets (l : List Char) (c : Char)
    (hc : c ∈ staffStripBrackets l) : c ∈ l := by
  unfold staffStripBrackets at hc
  rcases mem_replacePass _ _ _ c hc with h | hc1
  · cases h
  rcases mem_replacePass _ _ _ c hc1 with h | hc2
  · cases h
  rcases mem_replacePass _ _ _ c hc2 with h | hc3
  · cases h
  rcases mem_replacePass _ _ _ c hc3 with h | hc4
  · cases h
  rcases mem_replacePass _ _ _ c hc4 with h | hc5
  · cases h
  exact hc5

/-- After the delimiter replaces, every character is a space or an input
character that is none of the replaced delimiters. -/
theorem mem_staffDelimsToSpace (l : List Char) (c : Char)
    (hc : c ∈ staffDelimsToSpace l) :
    c = ' ' ∨ (c ∈ l ∧ c ≠ '&' ∧ c ≠ '/' ∧ c ≠ '+' ∧ c ≠ '•' ∧ c ≠ '·' ∧
      c ≠ '|' ∧ c ≠ '\n') := by
  unfold staffDelimsToSpace at hc
  rcases mem_replaceCharAll _ _ _ c hc with h | ⟨hc1, hn⟩
  · exact Or.inl h
  rcases mem_replaceCharAll _ _ _ c hc1 with h | ⟨hc2, hpipe⟩
  · exact Or.inl h
  rcases mem_replaceCharAll _ _ _ c hc2 with h | ⟨hc3, hdot⟩
  · exact Or.inl h
  rcases mem_replaceCharAll _ _ _ c hc3 with h | ⟨hc4, hbul⟩
  · exact Or.inl h
  rcases mem_replaceCharAll _ _ _ c hc4 with h | ⟨hc5, hplus⟩
  · exact Or.inl h
  rcases mem_replaceCharAll _ _ _ c hc5 with h | ⟨hc6, hslash⟩
  · exact Or.inl h
  rcases mem_replaceCharAll _ _ _ c hc6 with h | ⟨hc7, hamp⟩
  · exact Or.inl h
  rcases mem_replacePass _ _ _ c hc7 with h | hc8
  · exact Or.inl (List.mem_singleton.mp h)
  exact Or.inr ⟨hc8, hamp, hslash, hplus, hbul, hdot, hpipe, hn⟩

/-- Characters of the final tokens come from the delimiter-replaced text
and are never spaces. -/
theorem mem_staffTokens (l : List Char) (p : List Char)
    (hp : p ∈ staffTokens l) (c : Char) (hc : c ∈ p) :
    c ∈ staffDelimsToSpace (staffStripBrackets l) ∧ c ≠ ' ' := by
  unfold staffTokens at hp
  rcases List.mem_filter.mp hp with ⟨hp2, _⟩
  rcases List.mem_map.mp hp2 with ⟨q, hq, hqe⟩
  have hcq : c ∈ q := mem_trimJs q c (hqe ▸ hc)
  obtain ⟨hcl, hcsp⟩ := mem_splitOnSpace _ q hq c hcq
  have hcw := mem_trimJs _ c hcl
  rcases mem_replacePass _ _ _ c hcw with h | hcd
  · exact absurd (List.mem_singleton.mp h) hcsp
  · exact ⟨hcd, hcsp⟩

/-- Character provenance through the whole staff formatter: every output
character is a comma or an input character distinct from all the delimiter
characters the formatter maps to spaces. -/
theorem formatStaff_chars (s : String) (c : Char)
    (hc : c ∈ (formatStaffMenuContent s).toList) :
    c = ',' ∨ (c ∈ s.toList ∧ c ≠ '&' ∧ c ≠ '/' ∧ c ≠ '+' ∧ c ≠ '•' ∧
      c ≠ '·' ∧ c ≠ '|' ∧ c ≠ '\n') := by
  by_cases hempty : s = ""
  · rw [hempty] at hc
    cases hc
  · unfold formatStaffMenuContent at hc
    rw [if_neg hempty, toList_mk] at hc
    rcases mem_joinCommas _ c hc with h | ⟨p, hp, hcp⟩
    · exact Or.inl h
    · obtain ⟨hcd, hcsp⟩ := mem_staffTokens _ p hp c hcp
      rcases mem_staffDelimsToSpace _ c hcd with h | hfacts
      · exact absurd h hcsp
      · obtain ⟨hcb, h1, h2, h3, h4, h5, h6, h7⟩ := hfacts
        exact Or.inr
          ⟨mem_staffStripBrackets _ c hcb, h1, h2, h3, h4, h5, h6, h7⟩

/-- C6 counterexample: an unmatched opening bracket survives the staff
formatter — `\[[^\]]*\]` and the other bracket-stripping patterns require a
closing bracket, and `[` is not among the delimiter characters replaced by
spaces — so the output does contain `[`. -/
theorem formatStaff_unmatched_bracket :
    formatStaffMenuContent "[" = "[" ∧
      '[' ∈ (formatStaffMenuContent "[").toList := by
  refine ⟨rfl, ?_⟩
  decide

/-- C6 amended: the staff-rule formatter's output never contains `/`, `+`,
`•`, `·`, `|`, or a newline; it can contain `[` or `]` only where the input
did (bracketed annotations are stripped only when the brackets pair up —
unmatched brackets pass through). -/
theorem formatStaff_output_clean (s : String) :
    (∀ c ∈ (['/', '+', '•', '·', '|', '\n'] : List Char),
        c ∉ (formatStaffMenuContent s).toList) ∧
      ('[' ∈ (formatStaffMenuContent s).toList → '[' ∈ s.toList) ∧
      (']' ∈ (formatStaffMenuContent s).toList → ']' ∈ s.toList) := by
  refine ⟨?_, ?_, ?_⟩
  · intro c hcm hout
    rcases formatStaff_chars s c hout with h | ⟨_, h1, h2, h3, h4, h5, h6, h7⟩
    · exact absurd (h ▸ hcm) (by decide)
    · fin_cases hcm
      · exact h2 rfl
      · exact h3 rfl
      · exact h4 rfl
      · exact h5 rfl
      · exact h6 rfl
      · exact h7 rfl
  · intro hout
    rcases formatStaff_chars s '[' hout with h | ⟨h, _⟩
    · cases h
    · exact h
  · intro hout
    rcases formatStaff_chars s ']' hout with h | ⟨h, _⟩
    · cases h
    · exact h

/-- C6 amended witness: a slash input never survives to the output. -/
theorem formatStaff_output_clean_witness :
    '/' ∉ (formatStaffMenuContent "a/b").toList :=
  (formatStaff_output_clean "a/b").1 '/' (by decide)


/-! ### Lemmas for the dormitory formatter (C7) -/

/-- `dropWhile` over an all-satisfying front segment. -/
theorem dropWhile_allWs_append (a b : List Char)
    (ha : ∀ c ∈ a, jsWs c = true) :
    (a ++ b).dropWhile jsWs = b.dropWhile jsWs := by
  induction a with
  | nil => rfl
  | cons c cs ih =>
    have hc : jsWs c = true := ha c (List.mem_cons_self c cs)
    simp only [List.cons_append, List.dropWhile_cons, hc, if_true]
    exact ih fun d hd => ha d (List.mem_cons_of_mem c hd)

/-- `dropWhile` is idempotent. -/
theorem dropWhile_jsWs_idem (l : List Char) :
    (l.dropWhile jsWs).dropWhile jsWs = l.dropWhile jsWs := by
  induction l with
  | nil => rfl
  | cons c cs ih =>
    by_cases hc : jsWs c = true
    · simp only [List.dropWhile_cons, hc, if_true]
      exact ih
    · simp only [List.dropWhile_cons, hc, if_false, Bool.false_eq_true]

/-- The head surviving `dropWhile` does not satisfy the predicate. -/
theorem dropWhile_head_not (l : List Char) (d : Char) (rest : List Char)
    (h : l.dropWhile jsWs = d :: rest) : jsWs d = false := by
  induction l with
  | nil => cases h
  | cons c cs ih =>
    by_cases hc : jsWs c = true
    · rw [List.dropWhile_cons, if_pos hc] at h
      exact ih h
    · rw [List.dropWhile_cons, if_neg hc] at h
      cases h
      exact Bool.not_eq_true _ ▸ hc

/-- A comma pair in the sense of `hasCommaPair` is exactly an infix
`,<ws>*,`. -/
theorem hasCommaPair_iff_infixOf (l : List Char) :
    hasCommaPair l = true ↔
      ∃ w, (∀ c ∈ w, jsWs c = true) ∧ [','] ++ w ++ [','] <:+: l := by
  constructor
  · intro h
    induction l with
    | nil => cases h
    | cons c cs ih =>
      rw [hasCommaPair, Bool.or_eq_true] at h
      rcases h with h | h
      · rw [Bool.and_eq_true, beq_iff_eq, beq_iff_eq] at h
        obtain ⟨hc, hd⟩ := h
        subst hc
        cases hdw : cs.dropWhile jsWs with
        | nil => rw [hdw] at hd; cases hd
        | cons d rest =>
          rw [hdw] at hd
          have hd2 : d = ',' := by simpa using hd
          subst hd2
          have hcs : cs = cs.takeWhile jsWs ++ (',' :: rest) := by
            conv_lhs => rw [← List.takeWhile_append_dropWhile (p := jsWs)
              (l := cs), hdw]
          refine ⟨cs.takeWhile jsWs,
            fun x hx => List.mem_takeWhile_imp hx, [], rest, ?_⟩
          rw [List.nil_append]
          calc ([','] ++ cs.takeWhile jsWs ++ [',']) ++ rest
              = ',' :: (cs.takeWhile jsWs ++ (',' :: rest)) := by simp
            _ = ',' :: cs := by rw [← hcs]
      · obtain ⟨w, hw, hinf⟩ := ih h
        exact ⟨w, hw, hinf.trans (List.suffix_cons c cs).isInfix⟩
  · rintro ⟨w, hw, pre, post, hsplit⟩
    have hws : jsWs ',' = false := by decide
    have base : hasCommaPair ((([','] ++ w) ++ [',']) ++ post) = true := by
      show hasCommaPair (',' :: ((w ++ [',']) ++ post)) = true
      rw [hasCommaPair, Bool.or_eq_true]
      left
      rw [Bool.and_eq_true, beq_iff_eq, beq_iff_eq]
      refine ⟨rfl, ?_⟩
      rw [List.append_assoc, dropWhile_allWs_append w ([','] ++ post) hw]
      simp [List.dropWhile_cons, hws]
    have mono : ∀ (a b : List Char), hasCommaPair b = true →
        hasCommaPair (a ++ b) = true := by
      intro a
      induction a with
      | nil => exact fun b hb => hb
      | cons c cs ih =>
        intro b hb
        rw [List.cons_append, hasCommaPair, Bool.or_eq_true]
        exact Or.inr (ih b hb)
    rw [← hsplit, List.append_assoc]
    exact mono pre _ base

/-- Comma pairs transfer along infixes. -/
theorem hasCommaPair_mono (l1 l2 : List Char) (h : l1 <:+: l2)
    (hp : hasCommaPair l1 = true) : hasCommaPair l2 = true := by
  rw [hasCommaPair_iff_infixOf] at hp ⊢
  obtain ⟨w, hw, hinf⟩ := hp
  exact ⟨w, hw, hinf.trans h⟩

/-- Comma pairs are reverse-invariant. -/
theorem hasCommaPair_reverse (l : List Char) :
    hasCommaPair l.reverse = hasCommaPair l := by
  have dir : ∀ x : List Char, hasCommaPair x = true →
      hasCommaPair x.reverse = true := by
    intro x hx
    rw [hasCommaPair_iff_infixOf] at hx ⊢
    obtain ⟨w, hw, hinf⟩ := hx
    refine ⟨w.reverse, fun c hc => hw c (List.mem_reverse.mp hc), ?_⟩
    have hinf2 : ([','] ++ w ++ [',']).reverse <:+: x.reverse :=
      List.reverse_infix.mpr hinf
    have he : ([','] ++ w ++ [',']).reverse =
        [','] ++ w.reverse ++ [','] := by
      simp
    rw [he] at hinf2
    exact hinf2
  cases h1 : hasCommaPair l with
  | true => exact dir l h1
  | false =>
    cases h2 : hasCommaPair l.reverse with
    | false => rfl
    | true =>
      have h3 := dir l.reverse h2
      rw [List.reverse_reverse] at h3
      rw [h3] at h1
      cases h1


/-- A comma visible after leading whitespace stays visible under a right
extension. -/
theorem headCommaAfterWs_append (a t : List Char)
    (ha : headCommaAfterWs a = true) : headCommaAfterWs (a ++ t) = true := by
  rw [headCommaAfterWs, beq_iff_eq] at ha ⊢
  cases hdw : a.dropWhile jsWs with
  | nil => rw [hdw] at ha; cases ha
  | cons d rest =>
    rw [hdw] at ha
    have hd : d = ',' := by simpa using ha
    subst hd
    have hcs : a = a.takeWhile jsWs ++ (',' :: rest) := by
      conv_lhs => rw [← List.takeWhile_append_dropWhile (p := jsWs)
        (l := a), hdw]
    rw [hcs, List.append_assoc,
      dropWhile_allWs_append _ _ fun x hx => List.mem_takeWhile_imp hx]
    simp [List.dropWhile_cons, (by decide : jsWs ',' = false)]

/-- Prefix monotonicity of `headCommaAfterWs`. -/
theorem headCommaAfterWs_prefix_mono (a b : List Char) (h : a <+: b)
    (ha : headCommaAfterWs a = true) : headCommaAfterWs b = true := by
  obtain ⟨t, rfl⟩ := h
  exact headCommaAfterWs_append a t ha

/-- The trailing-comma test is the leading-comma test of the reversal. -/
theorem endsCommaWs_eq_reverse (l : List Char) :
    endsCommaWs l = headCommaAfterWs l.reverse := rfl

/-- Suffix monotonicity of `endsCommaWs`. -/
theorem endsCommaWs_suffix_mono (a b : List Char) (h : a <:+ b)
    (ha : endsCommaWs a = true) : endsCommaWs b = true := by
  rw [endsCommaWs_eq_reverse] at ha ⊢
  exact headCommaAfterWs_prefix_mono a.reverse b.reverse
    (List.reverse_prefix.mpr h) ha

/-- Absence of comma pairs restricts to any infix. -/
theorem hasCommaPair_false_mono (a b : List Char) (h : a <:+: b)
    (hb : hasCommaPair b = false) : hasCommaPair a = false := by
  cases ha : hasCommaPair a with
  | false => rfl
  | true =>
    rw [hasCommaPair_mono a b h ha] at hb
    cases hb

/-- A head comma followed (after whitespace) by a second comma is a comma
pair. -/
theorem hasCommaPair_of_structure (l rest : List Char)
    (hdw : l.dropWhile jsWs = ',' :: rest)
    (hr : (rest.dropWhile jsWs).head? = some ',') : hasCommaPair l = true := by
  cases hdr : rest.dropWhile jsWs with
  | nil => rw [hdr] at hr; cases hr
  | cons e rest2 =>
    rw [hdr] at hr
    have he : e = ',' := by simpa using hr
    subst he
    rw [hasCommaPair_iff_infixOf]
    have hl : l = l.takeWhile jsWs ++ (',' :: rest) := by
      conv_lhs => rw [← List.takeWhile_append_dropWhile (p := jsWs)
        (l := l), hdw]
    have hrest : rest = rest.takeWhile jsWs ++ (',' :: rest2) := by
      conv_lhs => rw [← List.takeWhile_append_dropWhile (p := jsWs)
        (l := rest), hdr]
    refine ⟨rest.takeWhile jsWs, fun x hx => List.mem_takeWhile_imp hx,
      l.takeWhile jsWs, rest2, ?_⟩
    conv_rhs => rw [hl, hrest]
    simp

/-- A head comma followed by only whitespace means the string ends in a
comma modulo whitespace. -/
theorem endsCommaWs_of_structure (l rest : List Char)
    (hdw : l.dropWhile jsWs = ',' :: rest)
    (hr : rest.dropWhile jsWs = []) : endsCommaWs l = true := by
  have hallws : ∀ c ∈ rest, jsWs c = true := List.dropWhile_eq_nil_iff.mp hr
  have hl : l = l.takeWhile jsWs ++ (',' :: rest) := by
    conv_lhs => rw [← List.takeWhile_append_dropWhile (p := jsWs)
      (l := l), hdw]
  rw [endsCommaWs, beq_iff_eq]
  conv_lhs => rw [hl]
  rw [List.reverse_append, List.reverse_cons, List.append_assoc,
    dropWhile_allWs_append _ _
      fun x hx => hallws x (List.mem_reverse.mp hx)]
  simp [List.dropWhile_cons, (by decide : jsWs ',' = false)]

/-- A string whose raw head is a comma passes the leading-comma test. -/
theorem headCommaAfterWs_of_head (l : List Char)
    (h : l.head? = some ',') : headCommaAfterWs l = true := by
  cases l with
  | nil => cases h
  | cons c cs =>
    have hc : c = ',' := by simpa using h
    subst hc
    rw [headCommaAfterWs]
    simp [List.dropWhile_cons, (by decide : jsWs ',' = false)]

/-- A string whose raw last character is a comma passes the trailing-comma
test. -/
theorem endsCommaWs_of_getLast (l : List Char)
    (h : l.getLast? = some ',') : endsCommaWs l = true := by
  rw [endsCommaWs_eq_reverse]
  exact headCommaAfterWs_of_head l.reverse (by rw [List.head?_reverse]; exact h)

/-- Without comma pairs, the pair-collapse pass `/,\s*,/g` is the
identity. -/
theorem collapse_aux_id :
    ∀ (fuel : Nat) (l : List Char), hasCommaPair l = false →
      replacePassAux commaPairMatcher [','] fuel l = l := by
  intro fuel
  induction fuel with
  | zero => intro l _; rfl
  | succ fuel ih =>
    intro l hl
    cases l with
    | nil => rfl
    | cons c cs =>
      rw [hasCommaPair, Bool.or_eq_false_iff] at hl
      obtain ⟨h1, h2⟩ := hl
      have hm : commaPairMatcher (c :: cs) = none := by
        by_cases hc : c = ','
        · subst hc
          have hh : ((cs.dropWhile jsWs).head? == some ',') = false := by
            simpa using h1
          cases hd : cs.dropWhile jsWs with
          | nil => simp [commaPairMatcher, toMatcher, consumeChar, hd]
          | cons d rest =>
            rw [hd] at hh
            have hd2 : ¬ (d = ',') := by simpa using hh
            simp [commaPairMatcher, toMatcher, consumeChar, hd, hd2]
        · simp [commaPairMatcher, toMatcher, consumeChar, hc]
      rw [replacePassAux, hm]
      exact congrArg (c :: ·) (ih cs h2)

/-- `replacePass` form of the collapse identity. -/
theorem collapse_id (l : List Char) (h : hasCommaPair l = false) :
    replacePass commaPairMatcher [','] l = l :=
  collapse_aux_id l.length l h

/-- The whitespace-comma matcher fails exactly when no comma follows the
leading whitespace. -/
theorem finalM_none (l : List Char) (h : headCommaAfterWs l = false) :
    wsAroundMatcher (fun c => c == ',') l = none := by
  unfold wsAroundMatcher toMatcher
  rw [headCommaAfterWs] at h
  cases hd : l.dropWhile jsWs with
  | nil => simp [hd]
  | cons d rest =>
    rw [hd] at h
    have hd2 : (d == ',') = false := by simpa using h
    simp [hd, hd2]

/-- Dropping to a suffix. -/
theorem drop_length_sub_of_suffix (r l : List Char) (h : r <:+ l) :
    l.drop (l.length - r.length) = r := by
  obtain ⟨t, rfl⟩ := h
  rw [List.length_append, Nat.add_sub_cancel]
  exact List.drop_left t r

/-- When a comma follows the leading whitespace, the whitespace-comma
matcher consumes the whitespace, the comma and the trailing whitespace. -/
theorem finalM_some (l rest : List Char)
    (hdw : l.dropWhile jsWs = ',' :: rest) :
    ∃ n, wsAroundMatcher (fun c => c == ',') l = some (n + 1) ∧
      l.drop (n + 1) = rest.dropWhile jsWs := by
  have hsuff : rest.dropWhile jsWs <:+ l := by
    have h1 : rest.dropWhile jsWs <:+ rest := List.dropWhile_suffix jsWs
    have h2 : rest <:+ ',' :: rest := ⟨[','], rfl⟩
    have h3 : (',' : Char) :: rest <:+ l := by
      rw [← hdw]
      exact List.dropWhile_suffix jsWs
    exact (h1.trans h2).trans h3
  have hlen : (rest.dropWhile jsWs).length < l.length := by
    have h1 : (rest.dropWhile jsWs).length ≤ rest.length :=
      (List.dropWhile_suffix jsWs).length_le
    have h2 : (',' :: rest).length ≤ l.length := by
      have h3 : (',' : Char) :: rest <:+ l := by
        rw [← hdw]
        exact List.dropWhile_suffix jsWs
      exact h3.length_le
    simp only [List.length_cons] at h2
    omega
  have hk : ∃ n, l.length - (rest.dropWhile jsWs).length = n + 1 := by
    refine ⟨l.length - (rest.dropWhile jsWs).length - 1, ?_⟩
    omega
  obtain ⟨n, hn⟩ := hk
  refine ⟨n, ?_, ?_⟩
  · simp [wsAroundMatcher, toMatcher, hdw, hn]
  · rw [← hn]
    exact drop_length_sub_of_suffix _ l hsuff

/-- The final pass never maps a non-empty string to the empty string. -/
theorem finalAux_ne_nil (fuel : Nat) (l : List Char) (h : l ≠ []) :
    replacePassAux (wsAroundMatcher fun c => c == ',') [','] fuel l ≠ [] := by
  cases fuel with
  | zero => exact h
  | succ fuel =>
    cases l with
    | nil => exact absurd rfl h
    | cons c cs =>
      rw [replacePassAux]
      cases hm : wsAroundMatcher (fun c => c == ',') (c :: cs) with
      | none => simp
      | some n =>
        cases n with
        | zero => simp
        | succ n => simp


/-- Invariant of the final `/\s*,\s*/g` pass: with no comma pair and no
trailing comma in the input, the output has no adjacent commas, begins with
a comma only if the input did (after whitespace), and does not end in a
comma. -/
theorem finalAux_good :
    ∀ (fuel : Nat) (l : List Char),
      hasCommaPair l = false → endsCommaWs l = false →
      (¬ [',', ','] <:+:
          replacePassAux (wsAroundMatcher fun c => c == ',') [','] fuel l) ∧
        ((replacePassAux (wsAroundMatcher fun c => c == ',') [','] fuel
              l).head? = some ',' → headCommaAfterWs l = true) ∧
        (replacePassAux (wsAroundMatcher fun c => c == ',') [','] fuel
            l).getLast? ≠ some ',' := by
  intro fuel
  induction fuel with
  | zero =>
    intro l hP hQ
    refine ⟨?_, fun hd => headCommaAfterWs_of_head l hd, ?_⟩
    · intro hinf
      have hp := hasCommaPair_mono _ l hinf (by decide)
      rw [hp] at hP
      cases hP
    · intro hlast
      have he := endsCommaWs_of_getLast l hlast
      rw [he] at hQ
      cases hQ
  | succ fuel ih =>
    intro l hP hQ
    cases l with
    | nil =>
      have hnil : replacePassAux (wsAroundMatcher fun c => c == ',') [',']
          (fuel + 1) ([] : List Char) = [] := rfl
      rw [hnil]
      refine ⟨?_, ?_, ?_⟩
      · intro hinf
        have hle := hinf.length_le
        simp at hle
      · intro hd
        cases hd
      · intro hlast
        cases hlast
    | cons c cs =>
      cases hhc : headCommaAfterWs (c :: cs) with
      | false =>
        have hm := finalM_none _ hhc
        have hstep :
            replacePassAux (wsAroundMatcher fun c => c == ',') [',']
                (fuel + 1) (c :: cs) =
              c :: replacePassAux (wsAroundMatcher fun c => c == ',') [',']
                fuel cs := by
          rw [replacePassAux, hm]
        have hcne : c ≠ ',' := by
          intro hceq
          subst hceq
          rw [headCommaAfterWs] at hhc
          simp [List.dropWhile_cons, (by decide : jsWs ',' = false)] at hhc
        have hPcs : hasCommaPair cs = false := by
          rw [hasCommaPair, Bool.or_eq_false_iff] at hP
          exact hP.2
        have hQcs : endsCommaWs cs = false := by
          cases hq : endsCommaWs cs with
          | false => rfl
          | true =>
            rw [endsCommaWs_suffix_mono cs (c :: cs)
              (List.suffix_cons c cs) hq] at hQ
            cases hQ
        obtain ⟨ih1, ih2, ih3⟩ := ih cs hPcs hQcs
        rw [hstep]
        refine ⟨?_, ?_, ?_⟩
        · intro hinf
          rw [List.infix_cons_iff] at hinf
          rcases hinf with hpre | hinf2
          · rw [List.cons_prefix_cons] at hpre
            exact hcne hpre.1.symm
          · exact ih1 hinf2
        · intro hd
          have hc2 : c = ',' := by simpa using hd
          exact absurd hc2 hcne
        · cases haux : replacePassAux (wsAroundMatcher fun c => c == ',')
              [','] fuel cs with
          | nil =>
            intro h
            have hc2 : c = ',' := by simpa using h
            exact hcne hc2
          | cons x xs =>
            rw [List.getLast?_cons_cons]
            rw [haux] at ih3
            exact ih3
      | true =>
        have hdwex : ∃ rest, (c :: cs).dropWhile jsWs = ',' :: rest := by
          rw [headCommaAfterWs, beq_iff_eq] at hhc
          cases hdw : (c :: cs).dropWhile jsWs with
          | nil => rw [hdw] at hhc; cases hhc
          | cons d rest =>
            rw [hdw] at hhc
            have hd2 : d = ',' := by simpa using hhc
            subst hd2
            exact ⟨rest, rfl⟩
        obtain ⟨rest, hdw⟩ := hdwex
        obtain ⟨n, hm, hdrop⟩ := finalM_some (c :: cs) rest hdw
        have hstep :
            replacePassAux (wsAroundMatcher fun c => c == ',') [',']
                (fuel + 1) (c :: cs) =
              ',' :: replacePassAux (wsAroundMatcher fun c => c == ',') [',']
                fuel (rest.dropWhile jsWs) := by
          rw [replacePassAux, hm]
          have hdrop2 : cs.drop n = rest.dropWhile jsWs := hdrop
          show [','] ++ replacePassAux (wsAroundMatcher fun c => c == ',')
              [','] fuel (cs.drop n) = _
          rw [hdrop2]
          rfl
        have hrsuff : rest.dropWhile jsWs <:+ (c :: cs) := by
          have h1 : rest.dropWhile jsWs <:+ rest := List.dropWhile_suffix jsWs
          have h2 : rest <:+ (',' :: rest) := ⟨[','], rfl⟩
          have h3 : (',' : Char) :: rest <:+ (c :: cs) := by
            rw [← hdw]
            exact List.dropWhile_suffix jsWs
          exact (h1.trans h2).trans h3
        have hPr : hasCommaPair (rest.dropWhile jsWs) = false :=
          hasCommaPair_false_mono _ _ hrsuff.isInfix hP
        have hrne : rest.dropWhile jsWs ≠ [] := by
          intro hnil
          have he := endsCommaWs_of_structure (c :: cs) rest hdw hnil
          rw [he] at hQ
          cases hQ
        have hQr : endsCommaWs (rest.dropWhile jsWs) = false := by
          cases hq : endsCommaWs (rest.dropWhile jsWs) with
          | false => rfl
          | true =>
            rw [endsCommaWs_suffix_mono _ _ hrsuff hq] at hQ
            cases hQ
        obtain ⟨ih1, ih2, ih3⟩ := ih (rest.dropWhile jsWs) hPr hQr
        rw [hstep]
        refine ⟨?_, fun _ => rfl, ?_⟩
        · intro hinf
          rw [List.infix_cons_iff] at hinf
          rcases hinf with hpre | hinf2
          · rw [List.cons_prefix_cons] at hpre
            obtain ⟨-, hpre2⟩ := hpre
            obtain ⟨t, ht⟩ := hpre2
            have hh : (replacePassAux (wsAroundMatcher fun c => c == ',')
                [','] fuel (rest.dropWhile jsWs)).head? = some ',' := by
              rw [← ht]
              rfl
            have hhr := ih2 hh
            rw [headCommaAfterWs, dropWhile_jsWs_idem, beq_iff_eq] at hhr
            have hp := hasCommaPair_of_structure (c :: cs) rest hdw hhr
            rw [hp] at hP
            cases hP
          · exact ih1 hinf2
        · cases haux : replacePassAux (wsAroundMatcher fun c => c == ',')
              [','] fuel (rest.dropWhile jsWs) with
          | nil => exact absurd haux (finalAux_ne_nil fuel _ hrne)
          | cons x xs =>
            rw [List.getLast?_cons_cons]
            rw [haux] at ih3
            exact ih3


/-- Heads agree along a prefix. -/
theorem prefix_head_eq (a b : List Char) (d : Char) (h : a <+: b)
    (ha : a.head? = some d) : b.head? = some d := by
  obtain ⟨t, rfl⟩ := h
  cases a with
  | nil => cases ha
  | cons x xs =>
    have hx : x = d := by simpa using ha
    subst hx
    rfl

/-- The trimmed string is a prefix of the left-trimmed string. -/
theorem trimJs_prefix_dropWhile (l : List Char) :
    trimJs l <+: l.dropWhile jsWs := by
  unfold trimJs
  have h := List.dropWhile_suffix (l := (l.dropWhile jsWs).reverse) jsWs
  have h2 := List.reverse_prefix.mpr h
  rw [List.reverse_reverse] at h2
  exact h2

/-- Trimming produces an infix. -/
theorem trimJs_infixOf (l : List Char) : trimJs l <:+: l :=
  (trimJs_prefix_dropWhile l).isInfix.trans (List.dropWhile_suffix jsWs).isInfix

/-- The head of a trimmed string is never whitespace. -/
theorem trimJs_head_not_ws (l : List Char) (d : Char) (rest : List Char)
    (h : trimJs l = d :: rest) : jsWs d = false := by
  have hh : (trimJs l).head? = some d := by rw [h]; rfl
  have hh2 := prefix_head_eq _ _ d (trimJs_prefix_dropWhile l) hh
  cases hdw : l.dropWhile jsWs with
  | nil => rw [hdw] at hh2; cases hh2
  | cons e es =>
    rw [hdw] at hh2
    have he : e = d := by simpa using hh2
    subst he
    exact dropWhile_head_not l e es hdw

/-- Dropping a leading comma yields a suffix. -/
theorem dropLeadingComma_suffix (l : List Char) : dropLeadingComma l <:+ l := by
  cases l with
  | nil => exact List.suffix_refl _
  | cons c rest =>
    by_cases hc : c = ','
    · subst hc
      have hr : dropLeadingComma (',' :: rest) = rest.dropWhile jsWs := rfl
      rw [hr]
      exact (List.dropWhile_suffix jsWs).trans (List.suffix_cons ',' rest)
    · simp only [dropLeadingComma, if_neg hc]
      exact List.suffix_refl _

/-- After dropping a leading comma from a trimmed, pair-free string, no
comma is visible at the front. -/
theorem headComma_after_dropLeading (x : List Char)
    (hx : hasCommaPair x = false)
    (hhead : ∀ d rest, x = d :: rest → jsWs d = false) :
    headCommaAfterWs (dropLeadingComma x) = false := by
  cases x with
  | nil => rfl
  | cons d rest =>
    by_cases hd : d = ','
    · subst hd
      have hr : dropLeadingComma (',' :: rest) = rest.dropWhile jsWs := rfl
      rw [hr]
      cases hq : headCommaAfterWs (rest.dropWhile jsWs) with
      | false => rfl
      | true =>
        rw [headCommaAfterWs, dropWhile_jsWs_idem] at hq
        rw [hasCommaPair, Bool.or_eq_false_iff] at hx
        have hx1 := hx.1
        rw [hq] at hx1
        simp at hx1
    · have hr : dropLeadingComma (d :: rest) = d :: rest := by
        simp [dropLeadingComma, hd]
      rw [hr]
      have hws : jsWs d = false := hhead d rest rfl
      rw [headCommaAfterWs, List.dropWhile_cons, hws]
      simp [hd]

/-- Dropping a trailing comma yields a prefix. -/
theorem dropTrailingComma_prefixOf (l : List Char) :
    dropTrailingComma l <+: l := by
  unfold dropTrailingComma
  cases hm : l.reverse.dropWhile jsWs with
  | nil => exact List.prefix_refl _
  | cons c rest =>
    show (if c = ',' then rest.reverse else l) <+: l
    by_cases hc : c = ','
    · rw [if_pos hc]
      have h1 : rest <:+ l.reverse := by
        have h2 : rest <:+ c :: rest := List.suffix_cons c rest
        have h3 : (c :: rest) <:+ l.reverse := by
          rw [← hm]
          exact List.dropWhile_suffix jsWs
        exact h2.trans h3
      have h4 := List.reverse_prefix.mpr h1
      rw [List.reverse_reverse] at h4
      exact h4
    · rw [if_neg hc]

/-- After the trailing-comma removal on a pair-free string, the string no
longer ends in a comma modulo whitespace. -/
theorem endsComma_after_dropTrailing (x : List Char)
    (hx : hasCommaPair x = false) :
    endsCommaWs (dropTrailingComma x) = false := by
  unfold dropTrailingComma
  cases hm : x.reverse.dropWhile jsWs with
  | nil =>
    show endsCommaWs x = false
    rw [endsCommaWs, hm]
    rfl
  | cons d rest =>
    show endsCommaWs (if d = ',' then rest.reverse else x) = false
    by_cases hd : d = ','
    · subst hd
      rw [if_pos rfl]
      rw [endsCommaWs_eq_reverse, List.reverse_reverse]
      cases hq : headCommaAfterWs rest with
      | false => rfl
      | true =>
        rw [headCommaAfterWs, beq_iff_eq] at hq
        have hp := hasCommaPair_of_structure x.reverse rest hm hq
        rw [hasCommaPair_reverse] at hp
        rw [hp] at hx
        cases hx
    · rw [if_neg hd]
      rw [endsCommaWs, hm]
      simp [hd]

/-- C7 counterexample: the single pair-collapse pass only halves comma
runs, so `"a,,,b"` comes out as `"a,,b"` — with two adjacent commas —
while `",,,a"` keeps a leading comma and `"a,,,"` keeps a trailing one. -/
theorem formatMenu_comma_run_counterexample :
    formatMenuContent "a,,,b" = "a,,b" ∧
      [',', ','] <:+: ("a,,b" : String).toList ∧
      formatMenuContent ",,,a" = ",a" ∧ formatMenuContent "a,,," = "a," := by
  refine ⟨by decide, ⟨['a'], ['b'], by decide⟩, by decide, by decide⟩

/-- C7 amended: provided the delimiter-unification stage leaves no two
commas separated only by whitespace, the dormitory formatter's output
contains no two adjacent commas and neither begins nor ends with a comma.
(In general a run of n commas is only halved by the single collapse pass,
as the counterexample shows.) -/
theorem formatMenu_no_adjacent_or_edge_commas (s : String)
    (h : hasCommaPair (unifyDelims s) = false) :
    ¬ [',', ','] <:+: (formatMenuContent s).toList ∧
      (formatMenuContent s).toList.head? ≠ some ',' ∧
      (formatMenuContent s).toList.getLast? ≠ some ',' := by
  by_cases hempty : s = ""
  · subst hempty
    rw [show formatMenuContent "" = "" from rfl]
    refine ⟨?_, ?_, ?_⟩
    · intro hinf
      have hle := hinf.length_le
      simp at hle
    · intro hd
      cases hd
    · intro hlast
      cases hlast
  · unfold formatMenuContent
    rw [if_neg hempty, toList_mk, collapse_id _ h]
    have hPtrim : hasCommaPair (trimJs (unifyDelims s)) = false :=
      hasCommaPair_false_mono _ _ (trimJs_infixOf _) h
    have hP3 : hasCommaPair (dropLeadingComma (trimJs (unifyDelims s))) =
        false :=
      hasCommaPair_false_mono _ _ (dropLeadingComma_suffix _).isInfix hPtrim
    have hP4 : hasCommaPair (dropTrailingComma (dropLeadingComma
        (trimJs (unifyDelims s)))) = false :=
      hasCommaPair_false_mono _ _ (dropTrailingComma_prefixOf _).isInfix hP3
    have hQ4 : endsCommaWs (dropTrailingComma (dropLeadingComma
        (trimJs (unifyDelims s)))) = false :=
      endsComma_after_dropTrailing _ hP3
    have hH3 : headCommaAfterWs (dropLeadingComma
        (trimJs (unifyDelims s))) = false :=
      headComma_after_dropLeading _ hPtrim
        fun d rest hdr => trimJs_head_not_ws _ d rest hdr
    have hH4 : headCommaAfterWs (dropTrailingComma (dropLeadingComma
        (trimJs (unifyDelims s)))) = false := by
      cases hq : headCommaAfterWs (dropTrailingComma (dropLeadingComma
          (trimJs (unifyDelims s)))) with
      | false => rfl
      | true =>
        rw [headCommaAfterWs_prefix_mono _ _
          (dropTrailingComma_prefixOf _) hq] at hH3
        cases hH3
    obtain ⟨g1, g2, g3⟩ := finalAux_good
      (dropTrailingComma (dropLeadingComma
        (trimJs (unifyDelims s)))).length
      (dropTrailingComma (dropLeadingComma (trimJs (unifyDelims s))))
      hP4 hQ4
    refine ⟨g1, ?_, g3⟩
    intro hd
    rw [g2 hd] at hH4
    cases hH4

/-- C7 amended witness: a clean delimiter-separated input keeps a
comma-free front. -/
theorem formatMenu_no_adjacent_or_edge_commas_witness :
    (formatMenuContent "a&b.c").toList.head? ≠ some ',' :=
  (formatMenu_no_adjacent_or_edge_commas "a&b.c" (by decide)).2.1

end KnuePortal
